import Mathlib

/-!
# EnvKey core: verified shallow embedding

A shallow embedding in Lean 4 of the graph-based access-control and
secret-lifecycle engine of the EnvKey repository, covering:

* the server-side keyable-parent API handlers
  (`src/public/app/api/shared/src/api_handlers/keyable_parents.ts`):
  `CREATE_SERVER`, `DELETE_SERVER`, `CREATE_LOCAL_KEY`, `DELETE_LOCAL_KEY`,
  `GENERATE_KEY`, `REVOKE_KEY` — their `graphAuthorizer`s and `graphHandler`s;
* the client core-process local HTTP server
  (`src/public/app/client/core_process/src/server.ts`):
  route registration order, the `/action` handler's lock gating and
  diff computation;
* the client block handlers
  (`src/public/app/client/core_process/src/handlers/blocks.ts`):
  the `DISCONNECT_BLOCK` action's proposer and encrypted-keys scope,
  and `mergeAccessScopes`.

The org graph is a JavaScript object mapping ids to polymorphic nodes; we
embed it as an association list with JavaScript-object upsert semantics
(a later assignment to an existing key overwrites it in place).

Library functions of the repository that live outside the provided source
files (`@core/lib/graph`, `@core/lib/crypto`, `rfc6902`, `uuid`) are
modelled from the specification; each such definition carries a doc
comment starting with "Modelled from the spec:".
-/

namespace EnvKey

/-- A hard-delete scope handed to the blob store within the transaction:
`{ pkey: "envkey|" + envkeyIdPart }`. -/
structure HardDeleteScope where
  pkey : String
deriving DecidableEq, Repr

/-- Transaction items attached to a graph handler result (only the part the
keyable-parent handlers produce: blob hard-delete scopes). -/
structure TransactionItems where
  hardDeleteScopes : List HardDeleteScope
deriving DecidableEq, Repr

/-- A targeted envkey-socket invalidation message
(`Api.ClearEnvkeySocketParams` with both fields). -/
structure ClearEnvkeySocket where
  orgId : String
  generatedEnvkeyId : String
deriving DecidableEq, Repr

/-- `Api.Db.Org` — only the fields the embedded handlers touch. -/
structure Org where
  id : String
  serverEnvkeyCount : Nat
  createdAt : Nat
  updatedAt : Nat
deriving DecidableEq, Repr

/-- `Api.Db.Server`. `deletedAt = some t` is the soft-delete marker. -/
structure Server where
  id : String
  appId : String
  environmentId : String
  name : String
  createdAt : Nat
  updatedAt : Nat
  deletedAt : Option Nat := none
deriving DecidableEq, Repr

/-- `Api.Db.LocalKey`: like a server, plus the binding user and device. -/
structure LocalKey where
  id : String
  appId : String
  environmentId : String
  name : String
  userId : String
  deviceId : String
  createdAt : Nat
  updatedAt : Nat
  deletedAt : Option Nat := none
deriving DecidableEq, Repr

/-- The keyable-parent type discriminant: `"server"` or `"localKey"`. -/
inductive KeyableParentType where
  | server
  | localKey
deriving DecidableEq, Repr

/-- `Api.Db.GeneratedEnvkey` — the issued credential. -/
structure GeneratedEnvkey where
  id : String
  appId : String
  environmentId : String
  keyableParentId : String
  keyableParentType : KeyableParentType
  envkeyIdPart : String
  envkeyIdPartHash : String
  envkeyShort : String
  pubkey : String
  pubkeyId : String
  encryptedPrivkey : String
  signedTrustedRoot : String
  trustedRootUpdatedAt : Nat
  creatorId : String
  creatorDeviceId : Option String
  signedById : String
  userId : Option String
  deviceId : Option String
  pubkeyUpdatedAt : Nat
  blobsUpdatedAt : Nat
  createdAt : Nat
  updatedAt : Nat
  deletedAt : Option Nat := none
deriving DecidableEq, Repr

/-- `Api.Db.Environment` — only the fields the handlers read. -/
structure EnvironmentNode where
  id : String
  envParentId : String
  environmentRoleId : String
  isSub : Bool
  parentEnvironmentId : String
  subKey : String
deriving DecidableEq, Repr

/-- `Model.AppBlock` — a connection node between an app and a block. -/
structure AppBlock where
  id : String
  appId : String
  blockId : String
  createdAt : Nat
  updatedAt : Nat
deriving DecidableEq, Repr

/-- A polymorphic graph node (the source stores all of these in one
dynamically-typed mapping discriminated by `type`). -/
inductive GraphObject where
  | org (o : Org)
  | server (s : Server)
  | localKey (l : LocalKey)
  | generatedEnvkey (g : GeneratedEnvkey)
  | environment (e : EnvironmentNode)
  | appBlock (c : AppBlock)
deriving DecidableEq, Repr

/-- The org graph: a JavaScript object keyed by node id, embedded as an
association list with unique keys maintained by upsert. -/
abbrev OrgGraph := List (String × GraphObject)

/-- JavaScript-object assignment `{...g, [k]: v}`: overwrite the binding of
`k` in place if present, else append it. -/
def upsert {α : Type} (g : List (String × α)) (k : String) (v : α) :
    List (String × α) :=
  match g with
  | [] => [(k, v)]
  | (k0, v0) :: rest =>
    if k0 = k then (k, v) :: rest else (k0, v0) :: upsert rest k v

/-- Property lookup `g[k]`. -/
def lookupObj {α : Type} (g : List (String × α)) (k : String) : Option α :=
  match g with
  | [] => none
  | (k0, v0) :: rest => if k0 = k then some v0 else lookupObj rest k

theorem lookupObj_upsert_self {α : Type} (g : List (String × α)) (k : String)
    (v : α) : lookupObj (upsert g k v) k = some v := by
  induction g with
  | nil => simp [upsert, lookupObj]
  | cons hd tl ih =>
    obtain ⟨k0, v0⟩ := hd
    by_cases hk : k0 = k <;> simp [upsert, lookupObj, hk, ih]

theorem lookupObj_upsert_ne {α : Type} (g : List (String × α)) (k k1 : String)
    (v : α) (hne : k1 ≠ k) :
    lookupObj (upsert g k v) k1 = lookupObj g k1 := by
  have hkk1 : ¬(k = k1) := fun h => hne h.symm
  induction g with
  | nil => simp [upsert, lookupObj, hkk1]
  | cons hd tl ih =>
    obtain ⟨k0, v0⟩ := hd
    by_cases hk : k0 = k
    · subst hk
      simp [upsert, lookupObj, hkk1]
    · by_cases hk1 : k0 = k1 <;> simp [upsert, lookupObj, hk, hk1, hkk1, hne, ih]

/-- `deletedAt` is unset: the credential is active. -/
def GeneratedEnvkey.isActive (g : GeneratedEnvkey) : Bool :=
  g.deletedAt.isNone

/-- Modelled from the spec: `sha256` from `@core/lib/crypto/utils` (not under
`src/`). The spec treats crypto as an opaque collision-free capability that
derives a "non-reversible lookup key"; we model it as an injective tagging
function so that distinct inputs have distinct hashes. -/
def sha256 (s : String) : String :=
  "sha256|" ++ s

theorem sha256_injective : Function.Injective sha256 := by
  intro a b h
  simp only [sha256] at h
  have h2 : ("sha256|" ++ a).data = ("sha256|" ++ b).data := by rw [h]
  simp only [String.data_append] at h2
  have h3 := List.append_cancel_left h2
  cases a; cases b
  exact congrArg String.mk h3

/-- Modelled from the spec: `getPubkeyHash` from `@core/lib/client` (not under
`src/`), the hash of a pubkey used as `pubkeyId`; opaque crypto, modelled as
an injective tag. -/
def getPubkeyHash (pubkey : String) : String :=
  "pubkeyHash|" ++ pubkey

/-- Modelled from the spec: `environmentCompositeId` from `@core/lib/graph`
(not under `src/`); §3 of the spec gives the format
`environmentCompositeId = parentEnvironmentId:subKey`. -/
def environmentCompositeId (e : EnvironmentNode) : String :=
  e.parentEnvironmentId ++ ":" ++ e.subKey

/-- Modelled from the spec: `getActiveGeneratedEnvkeysByKeyableParentId` from
`@core/lib/graph` (not under `src/`): the "parent → active-envkey index"
(§4.4) — a JavaScript object keyed by `keyableParentId` holding each
keyable parent's active (not soft-deleted) GeneratedEnvkey. We build it by
folding JavaScript-object assignment over the graph's values, so a later
active envkey for the same parent overwrites an earlier one.
`activeIndexStep` is the per-entry fold step. -/
def activeIndexStep (acc : List (String × GeneratedEnvkey))
    (entry : String × GraphObject) : List (String × GeneratedEnvkey) :=
  match entry.2 with
  | GraphObject.generatedEnvkey ge =>
    if ge.isActive then upsert acc ge.keyableParentId ge else acc
  | _ => acc

/-- Modelled from the spec: see `activeIndexStep` — the full
parent → active-envkey index. -/
def getActiveGeneratedEnvkeysByKeyableParentId (g : OrgGraph) :
    List (String × GeneratedEnvkey) :=
  g.foldl activeIndexStep []

/-- `Object.values(getActiveGeneratedEnvkeysByKeyableParentId(orgGraph)).length`:
the number of keyable parents currently holding an active GeneratedEnvkey
(of every keyable-parent type). -/
def numActiveEnvkeys (g : OrgGraph) : Nat :=
  (getActiveGeneratedEnvkeysByKeyableParentId g).length

/-- The index lookup
`getActiveGeneratedEnvkeysByKeyableParentId(orgGraph)[keyableParentId]`. -/
def activeEnvkeyForParent (g : OrgGraph) (keyableParentId : String) :
    Option GeneratedEnvkey :=
  lookupObj (getActiveGeneratedEnvkeysByKeyableParentId g) keyableParentId

/-- An active GeneratedEnvkey bound to a Server-type keyable parent. -/
def isActiveServerEnvkeyObj (obj : GraphObject) : Bool :=
  match obj with
  | GraphObject.generatedEnvkey ge =>
    ge.isActive && ge.keyableParentType == KeyableParentType.server
  | _ => false

/-- Soft-delete marker applied by graph deletion: sets `deletedAt` and
`updatedAt`. Node kinds the embedded handlers never delete (org,
environment, appBlock) are returned unchanged. -/
def markDeleted (obj : GraphObject) (now : Nat) : GraphObject :=
  match obj with
  | GraphObject.server s =>
    GraphObject.server { s with deletedAt := some now, updatedAt := now }
  | GraphObject.localKey l =>
    GraphObject.localKey { l with deletedAt := some now, updatedAt := now }
  | GraphObject.generatedEnvkey ge =>
    GraphObject.generatedEnvkey { ge with deletedAt := some now, updatedAt := now }
  | other => other

/-- Modelled from the spec: `deleteGraphObjects` from `@core/lib/graph` (not
under `src/`). It soft-deletes the listed graph objects (§3: issuing a new
envkey "implicitly invalidates (soft- or hard-deletes) the prior one") and,
per §3/§4.4 ("decrements counters", counter "updated atomically with
issuance/revocation"), decrements the org's `serverEnvkeyCount` by the
number of active Server-bound GeneratedEnvkeys being deleted.
`deleteAdjustEntry` is the per-entry transformation. -/
def deleteAdjustEntry (ids : List String) (now : Nat)
    (serverDeleteCount : Nat) (k : String) (v : GraphObject) : GraphObject :=
  if k ∈ ids then markDeleted v now
  else
    match v with
    | GraphObject.org o =>
      if serverDeleteCount > 0 then
        GraphObject.org
          { o with
            serverEnvkeyCount := o.serverEnvkeyCount - serverDeleteCount,
            updatedAt := now }
      else GraphObject.org o
    | other => other

/-- Modelled from the spec: see `deleteAdjustEntry` — applies the soft
delete and counter decrement across the whole graph. -/
def deleteGraphObjects (g : OrgGraph) (ids : List String) (now : Nat) :
    OrgGraph :=
  let serverDeleteCount :=
    g.countP (fun e => decide (e.1 ∈ ids) && isActiveServerEnvkeyObj e.2)
  g.map (fun e => (e.1, deleteAdjustEntry ids now serverDeleteCount e.1 e.2))

/-- Modelled from the spec: `getDeleteKeyableParentProducer` from
`@core/lib/graph` (not under `src/`). §4.4: deleting the owning
KeyableParent "deletes its active GeneratedEnvkey via the same path as
explicit revocation" — it deletes the keyable parent together with its
active envkey (found via the parent → active-envkey index), if any. -/
def getDeleteKeyableParentProducer (keyableParentId : String) (now : Nat)
    (g : OrgGraph) : OrgGraph :=
  match activeEnvkeyForParent g keyableParentId with
  | some ge => deleteGraphObjects g [keyableParentId, ge.id] now
  | none => deleteGraphObjects g [keyableParentId] now

/-- `auth.license` — the part the keyable-parent handlers read.
`maxServerEnvkeys = -1` means unlimited. -/
structure License where
  maxServerEnvkeys : Int
deriving DecidableEq, Repr

/-- The authentication context fields the embedded handlers read:
`auth.org.id`, `auth.user.id`, `auth.type == "tokenAuthContext"`,
`auth.orgUserDevice.id`, `auth.license`. -/
structure AuthContext where
  orgId : String
  userId : String
  isTokenAuthContext : Bool
  orgUserDeviceId : String
  license : License
deriving DecidableEq, Repr

/-- The `GenerateKey` payload fields the handler reads. (Storage-key fields
produced by `graph_key.ts` — not under `src/` — are omitted throughout; no
claim mentions them.) -/
structure GenerateKeyPayload where
  appId : String
  keyableParentId : String
  keyableParentType : KeyableParentType
  envkeyIdPart : String
  pubkey : String
  encryptedPrivkey : String
  signedTrustedRoot : String
deriving DecidableEq, Repr

/-- A uniform view of a keyable parent (Server or LocalKey) node. -/
structure KeyableParentView where
  id : String
  environmentId : String
  kType : KeyableParentType
  userId : Option String
  deviceId : Option String
deriving DecidableEq, Repr

/-- The source's `orgGraph[id] as Api.Db.KeyableParent` cast: succeeds on
server and localKey nodes only. -/
def asKeyableParent (obj : GraphObject) : Option KeyableParentView :=
  match obj with
  | GraphObject.server s =>
    some ⟨s.id, s.environmentId, KeyableParentType.server, none, none⟩
  | GraphObject.localKey l =>
    some ⟨l.id, l.environmentId, KeyableParentType.localKey,
      some l.userId, some l.deviceId⟩
  | _ => none

/-- The source's `orgGraph[id] as Api.Db.Environment` cast. -/
def asEnvironment (obj : GraphObject) : Option EnvironmentNode :=
  match obj with
  | GraphObject.environment e => some e
  | _ => none

/-- A `graphHandlerResult` as produced by the keyable-parent handlers:
the new graph, optional transaction items (blob hard-delete scopes),
optional targeted envkey-socket invalidations, log target ids and the
created id from `handlerContext` (when present). -/
structure GraphHandlerResult where
  graph : OrgGraph
  transactionItems : Option TransactionItems
  clearEnvkeySockets : Option (List ClearEnvkeySocket)
  logTargetIds : List String
  handlerCreatedId : Option String
deriving Repr

/-- `CREATE_SERVER`'s `graphAuthorizer` (keyable_parents.ts lines 24-45):
rejects when the license is limited and the number of keyable parents
holding an active GeneratedEnvkey (of any type) already reaches
`maxServerEnvkeys`; otherwise returns `authz.canCreateServer(...)`, passed
here as the oracle `canCreateServer` since `authz` is not under `src/`. -/
def createServerGraphAuthorizer (orgGraph : OrgGraph) (license : License)
    (canCreateServer : Bool) : Bool :=
  let numActive := numActiveEnvkeys orgGraph
  if license.maxServerEnvkeys != -1 &&
      (numActive : Int) >= license.maxServerEnvkeys then
    false
  else
    canCreateServer

/-- `GENERATE_KEY`'s `graphAuthorizer` (keyable_parents.ts lines 241-268):
for Server-type parents, rejects when the license is limited and
`numActive - (existingEnvkey ? 1 : 0) >= maxServerEnvkeys`, where
`numActive` counts keyable parents of every type holding an active
GeneratedEnvkey; otherwise returns `authz.canGenerateKey(...)` (oracle). -/
def generateKeyGraphAuthorizer (orgGraph : OrgGraph) (license : License)
    (keyableParentId : String) (keyableParentType : KeyableParentType)
    (canGenerateKey : Bool) : Bool :=
  if keyableParentType == KeyableParentType.server then
    let numActive := numActiveEnvkeys orgGraph
    let existingEnvkey := activeEnvkeyForParent orgGraph keyableParentId
    if license.maxServerEnvkeys != -1 &&
        (numActive : Int) - (if existingEnvkey.isSome then 1 else 0) >=
          license.maxServerEnvkeys then
      false
    else
      canGenerateKey
  else
    canGenerateKey

/-- The GeneratedEnvkey record built inside the module-level `generateKey`
helper (keyable_parents.ts lines 399-439): fields from the payload, the
keyable parent and the auth context; `newId` stands for the fresh
`uuid()`. -/
def mkGeneratedEnvkey (auth : AuthContext) (now : Nat)
    (payload : GenerateKeyPayload) (newId : String)
    (keyableParent : KeyableParentView) : GeneratedEnvkey :=
  { id := newId
    appId := payload.appId
    environmentId := keyableParent.environmentId
    keyableParentId := payload.keyableParentId
    keyableParentType := payload.keyableParentType
    envkeyIdPart := payload.envkeyIdPart
    envkeyIdPartHash := sha256 payload.envkeyIdPart
    envkeyShort := payload.envkeyIdPart.take 6
    pubkey := payload.pubkey
    pubkeyId := getPubkeyHash payload.pubkey
    encryptedPrivkey := payload.encryptedPrivkey
    signedTrustedRoot := payload.signedTrustedRoot
    trustedRootUpdatedAt := now
    creatorId := auth.userId
    creatorDeviceId :=
      if auth.isTokenAuthContext then some auth.orgUserDeviceId else none
    signedById :=
      if auth.isTokenAuthContext then auth.orgUserDeviceId else auth.userId
    userId := keyableParent.userId
    deviceId := keyableParent.deviceId
    pubkeyUpdatedAt := now
    blobsUpdatedAt := now
    createdAt := now
    updatedAt := now
    deletedAt := none }

/-- The org node written back by `generateKey`: `serverEnvkeyCount`
incremented for Server-type parents, unchanged otherwise. -/
def generateKeyOrgUpdate (org : Org) (payload : GenerateKeyPayload)
    (now : Nat) : GraphObject :=
  if payload.keyableParentType == KeyableParentType.server then
    GraphObject.org
      { org with
        serverEnvkeyCount := org.serverEnvkeyCount + 1, updatedAt := now }
  else
    GraphObject.org org

/-- The module-level `generateKey` helper (keyable_parents.ts lines
389-457): builds the new GeneratedEnvkey record, inserts it, and writes
back the org via `generateKeyOrgUpdate`. Returns `none` where the
source's unchecked casts would fail. -/
def generateKey (orgGraph : OrgGraph) (auth : AuthContext) (now : Nat)
    (payload : GenerateKeyPayload) (newId : String) :
    Option (OrgGraph × GeneratedEnvkey) :=
  match lookupObj orgGraph payload.keyableParentId >>= asKeyableParent with
  | none => none
  | some keyableParent =>
    match lookupObj orgGraph auth.orgId with
    | some (GraphObject.org org) =>
      let generatedEnvkey := mkGeneratedEnvkey auth now payload newId keyableParent
      let updatedGraph :=
        upsert (upsert orgGraph generatedEnvkey.id
            (GraphObject.generatedEnvkey generatedEnvkey)) auth.orgId
          (generateKeyOrgUpdate org payload now)
      some (updatedGraph, generatedEnvkey)
    | _ => none

/-- `GENERATE_KEY`'s `graphHandler` (keyable_parents.ts lines 269-335):
calls `generateKey`, then looks up the keyable parent's previously active
envkey on the *original* graph; if present, deletes it from the updated
graph, emits a blob hard-delete scope `"envkey|" + existing.envkeyIdPart`
and a single targeted envkey-socket invalidation for the existing envkey's
id. -/
def generateKeyGraphHandler (orgGraph : OrgGraph) (auth : AuthContext)
    (now : Nat) (payload : GenerateKeyPayload) (newId : String) :
    Option GraphHandlerResult :=
  match generateKey orgGraph auth now payload newId with
  | none => none
  | some (updatedGraph0, generatedEnvkey) =>
    let existingEnvkey := activeEnvkeyForParent orgGraph payload.keyableParentId
    let updatedGraph :=
      match existingEnvkey with
      | some existing => deleteGraphObjects updatedGraph0 [existing.id] now
      | none => updatedGraph0
    match lookupObj orgGraph payload.keyableParentId >>= asKeyableParent with
    | none => none
    | some keyableParent =>
      match lookupObj orgGraph keyableParent.environmentId >>= asEnvironment with
      | none => none
      | some environment =>
        let logTargetIds :=
          [generatedEnvkey.id, environment.envParentId,
            payload.keyableParentId, environment.environmentRoleId] ++
          (if keyableParent.kType == KeyableParentType.localKey then
            ["locals"]
          else if environment.isSub then
            [environmentCompositeId environment]
          else
            [])
        some
          { graph := updatedGraph
            transactionItems :=
              existingEnvkey.map (fun existing =>
                ⟨[⟨"envkey|" ++ existing.envkeyIdPart⟩]⟩)
            clearEnvkeySockets :=
              existingEnvkey.map (fun existing =>
                [⟨auth.orgId, existing.id⟩])
            logTargetIds := logTargetIds
            handlerCreatedId := some generatedEnvkey.id }

/-- `REVOKE_KEY`'s `graphHandler` (keyable_parents.ts lines 337-387):
soft-deletes the envkey's graph node via `deleteGraphObjects`, emits the
blob hard-delete scope `"envkey|" + envkeyIdPart` and a targeted
envkey-socket invalidation for the envkey's id. -/
def revokeKeyGraphHandler (orgGraph : OrgGraph) (auth : AuthContext)
    (now : Nat) (envkeyId : String) : Option GraphHandlerResult :=
  match lookupObj orgGraph envkeyId with
  | some (GraphObject.generatedEnvkey generatedEnvkey) =>
    match lookupObj orgGraph generatedEnvkey.keyableParentId >>=
        asKeyableParent with
    | none => none
    | some keyableParent =>
      match lookupObj orgGraph keyableParent.environmentId >>=
          asEnvironment with
      | none => none
      | some environment =>
        let logTargetIds :=
          [generatedEnvkey.id, generatedEnvkey.keyableParentId,
            environment.envParentId, environment.environmentRoleId] ++
          (if keyableParent.kType == KeyableParentType.localKey then
            ["locals"]
          else if environment.isSub then
            [environmentCompositeId environment]
          else
            [])
        some
          { graph := deleteGraphObjects orgGraph [generatedEnvkey.id] now
            transactionItems :=
              some ⟨[⟨"envkey|" ++ generatedEnvkey.envkeyIdPart⟩]⟩
            clearEnvkeySockets := some [⟨auth.orgId, generatedEnvkey.id⟩]
            logTargetIds := logTargetIds
            handlerCreatedId := none }
  | _ => none

/-- `DELETE_SERVER`'s `graphHandler` (keyable_parents.ts lines 79-125):
applies the cascading keyable-parent delete producer; when the server holds
an active GeneratedEnvkey, additionally emits that envkey's blob
hard-delete scope and a targeted envkey-socket invalidation, else emits
neither. -/
def deleteServerGraphHandler (orgGraph : OrgGraph) (auth : AuthContext)
    (now : Nat) (serverId : String) : Option GraphHandlerResult :=
  match lookupObj orgGraph serverId with
  | some (GraphObject.server server) =>
    match lookupObj orgGraph server.environmentId >>= asEnvironment with
    | none => none
    | some environment =>
      let generatedEnvkey := activeEnvkeyForParent orgGraph server.id
      some
        { graph := getDeleteKeyableParentProducer serverId now orgGraph
          transactionItems :=
            generatedEnvkey.map (fun ge => ⟨[⟨"envkey|" ++ ge.envkeyIdPart⟩]⟩)
          clearEnvkeySockets :=
            generatedEnvkey.map (fun ge => [⟨auth.orgId, ge.id⟩])
          logTargetIds :=
            [server.id, environment.envParentId,
              environment.environmentRoleId] ++
            (if environment.isSub then [environmentCompositeId environment]
            else [])
          handlerCreatedId := none }
  | _ => none

/-- `DELETE_LOCAL_KEY`'s `graphHandler` (keyable_parents.ts lines 185-231):
same shape as `DELETE_SERVER`, with `"locals"` among the log targets. -/
def deleteLocalKeyGraphHandler (orgGraph : OrgGraph) (auth : AuthContext)
    (now : Nat) (localKeyId : String) : Option GraphHandlerResult :=
  match lookupObj orgGraph localKeyId with
  | some (GraphObject.localKey localKey) =>
    match lookupObj orgGraph localKey.environmentId >>= asEnvironment with
    | none => none
    | some environment =>
      let generatedEnvkey := activeEnvkeyForParent orgGraph localKey.id
      some
        { graph := getDeleteKeyableParentProducer localKeyId now orgGraph
          transactionItems :=
            generatedEnvkey.map (fun ge => ⟨[⟨"envkey|" ++ ge.envkeyIdPart⟩]⟩)
          clearEnvkeySockets :=
            generatedEnvkey.map (fun ge => [⟨auth.orgId, ge.id⟩])
          logTargetIds :=
            [localKey.id, environment.envParentId,
              environment.environmentRoleId, "locals"]
          handlerCreatedId := none }
  | _ => none

/-! ## Counting active credentials and graph wellformedness -/

/-- The id stored inside a graph node. -/
def GraphObject.objId : GraphObject → String
  | GraphObject.org o => o.id
  | GraphObject.server s => s.id
  | GraphObject.localKey l => l.id
  | GraphObject.generatedEnvkey ge => ge.id
  | GraphObject.environment e => e.id
  | GraphObject.appBlock c => c.id

/-- Every graph entry is keyed by the id stored in its node (the source
always writes `[obj.id]: obj`). -/
def keysMatchIds (g : OrgGraph) : Prop :=
  ∀ e ∈ g, GraphObject.objId e.2 = e.1

/-- The number of graph entries holding an active GeneratedEnvkey
satisfying `p`. -/
def countActiveEnvkeysP (g : OrgGraph) (p : GeneratedEnvkey → Bool) : Nat :=
  g.countP (fun e =>
    match e.2 with
    | GraphObject.generatedEnvkey ge => ge.isActive && p ge
    | _ => false)

/-- The number of simultaneously active server-bound credentials. -/
def serverEnvkeyNodeCount (g : OrgGraph) : Nat :=
  countActiveEnvkeysP g (fun ge => ge.keyableParentType == KeyableParentType.server)

/-- The number of active GeneratedEnvkeys bound to one keyable parent. -/
def activeEnvkeysForParentCount (g : OrgGraph) (keyableParentId : String) :
    Nat :=
  countActiveEnvkeysP g (fun ge => ge.keyableParentId == keyableParentId)

/-- The single-active-credential invariant (§3, §8): at most one active
GeneratedEnvkey per KeyableParent. -/
def atMostOneActivePerParent (g : OrgGraph) : Prop :=
  ∀ keyableParentId, activeEnvkeysForParentCount g keyableParentId ≤ 1

/-- Graph wellformedness maintained by the pipeline: keys match node ids,
keys are unique (JavaScript object semantics), and the
single-active-credential invariant holds. -/
def GraphWF (g : OrgGraph) : Prop :=
  keysMatchIds g ∧ (g.map Prod.fst).Nodup ∧ atMostOneActivePerParent g

/-- Modelled from the spec: `uuid()` — a fresh identifier that collides
with no existing node id; modelled as a deterministic name strictly longer
than every key of the graph. -/
def freshId (g : OrgGraph) : String :=
  String.mk (List.replicate
    (1 + (g.map (fun e => e.1.length)).foldr Nat.max 0) 'x')

/-! ## The envkey lifecycle as a state transition system

One pipeline step per action: run the action's `graphAuthorizer` (with the
`authz` oracle outcome supplied as a boolean, since `authz` is not under
`src/`), and on success apply its `graphHandler`'s graph; a rejected or
failed action leaves the graph unchanged (§4.3: atomic commit or full
rollback). -/

inductive LifecycleAction where
  | generate (auth : AuthContext) (now : Nat) (payload : GenerateKeyPayload)
      (canGenerateKey : Bool)
  | revoke (auth : AuthContext) (now : Nat) (envkeyId : String)
      (canRevokeKey : Bool)
  | deleteServer (auth : AuthContext) (now : Nat) (serverId : String)
      (canDeleteServer : Bool)
  | deleteLocalKey (auth : AuthContext) (now : Nat) (localKeyId : String)
      (canDeleteLocalKey : Bool)

/-- One authorize-then-mutate pipeline step. -/
def applyLifecycleAction (g : OrgGraph) (a : LifecycleAction) : OrgGraph :=
  match a with
  | LifecycleAction.generate auth now payload canGenerateKey =>
    if generateKeyGraphAuthorizer g auth.license payload.keyableParentId
        payload.keyableParentType canGenerateKey then
      match generateKeyGraphHandler g auth now payload (freshId g) with
      | some res => res.graph
      | none => g
    else g
  | LifecycleAction.revoke auth now envkeyId canRevokeKey =>
    if canRevokeKey then
      match revokeKeyGraphHandler g auth now envkeyId with
      | some res => res.graph
      | none => g
    else g
  | LifecycleAction.deleteServer auth now serverId canDeleteServer =>
    if canDeleteServer then
      match deleteServerGraphHandler g auth now serverId with
      | some res => res.graph
      | none => g
    else g
  | LifecycleAction.deleteLocalKey auth now localKeyId canDeleteLocalKey =>
    if canDeleteLocalKey then
      match deleteLocalKeyGraphHandler g auth now localKeyId with
      | some res => res.graph
      | none => g
    else g

/-- A sequence of pipeline steps, applied in order. -/
def runLifecycleActions (g : OrgGraph) (actions : List LifecycleAction) :
    OrgGraph :=
  actions.foldl applyLifecycleAction g

/-! ## Access scopes (`blocks.ts`, `@core/lib/graph` scope functions) -/

/-- One dimension of an access scope: a finite id set or the absorbing
`"all"`. -/
inductive ScopeDim where
  | all
  | ids (s : Finset String)
deriving DecidableEq

/-- The `{ envParentIds, userIds, keyableParentIds }` access-scope triple. -/
structure AccessScope where
  envParentIds : ScopeDim
  userIds : ScopeDim
  keyableParentIds : ScopeDim
deriving DecidableEq

/-- Merging one scope dimension: `"all"` absorbs, finite sets union. -/
def mergeScopeDim : ScopeDim → ScopeDim → ScopeDim
  | ScopeDim.all, _ => ScopeDim.all
  | _, ScopeDim.all => ScopeDim.all
  | ScopeDim.ids a, ScopeDim.ids b => ScopeDim.ids (a ∪ b)

/-- Modelled from the spec: `mergeAccessScopes` from `@core/lib/graph` (not
under `src/`); §4.2: "Scopes merge by unioning each dimension, with `all`
absorbing any finite set on that dimension." The source's variadic form is
the fold of this binary merge. -/
def mergeAccessScopes (a b : AccessScope) : AccessScope :=
  { envParentIds := mergeScopeDim a.envParentIds b.envParentIds
    userIds := mergeScopeDim a.userIds b.userIds
    keyableParentIds := mergeScopeDim a.keyableParentIds b.keyableParentIds }

/-- Modelled from the spec: `deleteProposer` from the client graph lib (not
under `src/`): the graph proposer used by `DISCONNECT_BLOCK`, which
"removes the connection node" identified by the action payload's id from
the graph draft. -/
def deleteProposer (g : OrgGraph) (id : String) : OrgGraph :=
  g.filter (fun e => e.1 != id)

/-- `DISCONNECT_BLOCK`'s `encryptedKeysScopeFn` (blocks.ts lines 88-96):
reads the connection node (`graph[id] as Model.AppBlock`) and scopes the
invalidation to both env-parents, with `userIds` and `keyableParentIds`
`"all"`. `none` where the source's unchecked cast would fail. -/
def disconnectBlockEncryptedKeysScopeFn (graph : OrgGraph) (id : String) :
    Option AccessScope :=
  match lookupObj graph id with
  | some (GraphObject.appBlock connection) =>
    some
      { envParentIds := ScopeDim.ids {connection.appId, connection.blockId}
        userIds := ScopeDim.all
        keyableParentIds := ScopeDim.all }
  | _ => none

/-! ## The local control surface (`server.ts`) -/

/-- The routes the local Express server serves. -/
inductive CoreRoute where
  | alive
  | stop
  | state
  | action
  | other (path : String)
deriving DecidableEq

/-- Which layer ends up answering a request. -/
inductive RouteOutcome where
  | aliveResponse
  | stopTriggered
  | unauthorized
  | reachedStateHandler
  | reachedActionHandler
  | unmatched
deriving DecidableEq, Repr

/-- The Express route registration order in `start` (server.ts lines
42-63): `GET /alive` first (before logging), then `loggerMiddleware`, then
`GET /stop`, then `app.use([authMiddleware, lockoutMiddleware])`, then
`GET /state` and `POST /action`. A request runs through the layers in
order, so the auth middleware guards only the routes registered after it;
`authValid` is the outcome of `authenticateUserAgent` on the request's
user-agent token. -/
def routeRequest (route : CoreRoute) (authValid : Bool) : RouteOutcome :=
  match route with
  | CoreRoute.alive => RouteOutcome.aliveResponse
  | CoreRoute.stop => RouteOutcome.stopTriggered
  | CoreRoute.state =>
    if authValid then RouteOutcome.reachedStateHandler
    else RouteOutcome.unauthorized
  | CoreRoute.action =>
    if authValid then RouteOutcome.reachedActionHandler
    else RouteOutcome.unauthorized
  | CoreRoute.other _ =>
    if authValid then RouteOutcome.unmatched else RouteOutcome.unauthorized

/-- The client action types the `/action` handler treats specially, plus
an `other` bucket for every remaining action type. -/
inductive ClientActionType where
  | openUrl
  | unlockDevice
  | loadRecoveryKey
  | lockDevice
  | other (name : String)
deriving DecidableEq

/-- How the `/action` handler disposes of a request before (or instead of)
dispatching it through the pipeline. -/
inductive ActionGateOutcome where
  | badRequest400
  | openUrlShortcut301
  | unlockFailed403
  | initFailed500
  | lockedError403
  | notLocked422
  | storeMissing500
  | cannotLock422
  | lockedDevice200
  | dispatched
deriving DecidableEq, Repr

/-- The `/action` handler's gating control flow (server.ts lines 114-198),
in source order: missing body fields → 400; `OPEN_URL` → opened externally
and 301 before the lock check; while locked, `UNLOCK_DEVICE` attempts
unlock (403 on failure) and `LOAD_RECOVERY_KEY` re-initializes (500 on
failure) while every other type gets the explicit locked 403; while
unlocked, `UNLOCK_DEVICE` → 422; missing store → 500; `LOCK_DEVICE` → 422
without a passphrase, else locks and returns 200; anything remaining is
dispatched through the pipeline. -/
def actionRouteGate (hasActionAndContext : Bool) (locked : Bool)
    (unlockOk : Bool) (initOk : Bool) (storeDefined : Bool)
    (requiresPassphrase : Bool) (t : ClientActionType) : ActionGateOutcome :=
  if !hasActionAndContext then ActionGateOutcome.badRequest400
  else if t == ClientActionType.openUrl then ActionGateOutcome.openUrlShortcut301
  else if locked && t == ClientActionType.unlockDevice && !unlockOk then
    ActionGateOutcome.unlockFailed403
  else if locked && t == ClientActionType.loadRecoveryKey && !initOk then
    ActionGateOutcome.initFailed500
  else if locked && !(t == ClientActionType.unlockDevice) &&
      !(t == ClientActionType.loadRecoveryKey) then
    ActionGateOutcome.lockedError403
  else if !locked && t == ClientActionType.unlockDevice then
    ActionGateOutcome.notLocked422
  else if !storeDefined then ActionGateOutcome.storeMissing500
  else if t == ClientActionType.lockDevice && !requiresPassphrase then
    ActionGateOutcome.cannotLock422
  else if t == ClientActionType.lockDevice then ActionGateOutcome.lockedDevice200
  else ActionGateOutcome.dispatched

/-! ## The `/action` response diffs (`server.ts` lines 195-243) -/

/-- A serialized client state: a flat record of field values, one per
field index. -/
abbrev ClientState := List Nat

/-- A forward JSON patch: replace operations `(field index, new value)`. -/
abbrev StatePatch := List (Nat × Nat)

def createPatchAux : Nat → List Nat → List Nat → StatePatch
  | _, [], _ => []
  | _, _ :: _, [] => []
  | i, a :: as, b :: bs =>
    (if a = b then [] else [(i, b)]) ++ createPatchAux (i + 1) as bs

/-- Modelled from the spec: rfc6902 `createPatch` (external library); §4.5:
"a minimal forward patch between the pre- and post-action serialized local
state" — one replace operation per field whose value differs. -/
def createPatch (pre post : ClientState) : StatePatch :=
  createPatchAux 0 pre post

/-- Index lookup among the patch's replace operations. -/
def lookupIdx (p : StatePatch) (i : Nat) : Option Nat :=
  match p with
  | [] => none
  | (j, w) :: rest => if j = i then some w else lookupIdx rest i

def applyPatchAux : Nat → List Nat → StatePatch → List Nat
  | _, [], _ => []
  | i, v :: vs, p =>
    (match lookupIdx p i with
      | some w => w
      | none => v) :: applyPatchAux (i + 1) vs p

/-- Modelled from the spec: rfc6902 patch application — each replace
operation overwrites the addressed field. -/
def applyPatch (s : ClientState) (p : StatePatch) : ClientState :=
  applyPatchAux 0 s p

/-- The action-params fields the `/action` handler reads:
`actionParams.type` and the optional `skipLocalSocketUpdate` flag
(`getActionParams` lives in the client handler registry, not under
`src/`). -/
structure ActionParams where
  paramsType : String
  skipLocalSocketUpdate : Bool
deriving DecidableEq, Repr

/-- `shouldSendSocketUpdate` (server.ts lines 202-209): a local socket
update carrying `createPatch(initial, afterDispatch)` is sent exactly for
non-skipping `asyncClientAction` / `apiRequestAction` actions. -/
def shouldSendSocketUpdate (actionParams : ActionParams) : Bool :=
  !actionParams.skipLocalSocketUpdate &&
    (actionParams.paramsType == "asyncClientAction" ||
      actionParams.paramsType == "apiRequestAction")

/-- The `diffs` field of the `/action` HTTP response (server.ts lines
233-241): a patch onto `dispatchRes.state`, based from
`afterDispatchClientState` when a socket update was sent, else from
`initialClientState`. -/
def actionResponseDiffs (initialState afterDispatchState finalState : ClientState)
    (sendSocket : Bool) : StatePatch :=
  createPatch (if sendSocket then afterDispatchState else initialState)
    finalState

/-! ## Supporting lemmas -/

theorem lookupObj_eq_none_iff {α : Type} (g : List (String × α)) (k : String) :
    lookupObj g k = none ↔ k ∉ g.map Prod.fst := by
  induction g with
  | nil => simp [lookupObj]
  | cons hd tl ih =>
    obtain ⟨k0, v0⟩ := hd
    by_cases hk : k0 = k
    · subst hk
      simp [lookupObj]
    · rw [lookupObj, if_neg hk, ih]
      simp only [List.map_cons, List.mem_cons]
      constructor
      · intro h hmem
        rcases hmem with h1 | h1
        · exact hk h1.symm
        · exact h h1
      · intro h h1
        exact h (Or.inr h1)

theorem upsert_eq_append_of_lookup_none {α : Type} (g : List (String × α))
    (k : String) (v : α) (h : lookupObj g k = none) :
    upsert g k v = g ++ [(k, v)] := by
  induction g with
  | nil => simp [upsert]
  | cons hd tl ih =>
    obtain ⟨k0, v0⟩ := hd
    by_cases hk : k0 = k
    · rw [lookupObj, if_pos hk] at h
      exact absurd h (by simp)
    · rw [lookupObj, if_neg hk] at h
      simp [upsert, hk, ih h]

theorem keys_upsert_of_lookup_some {α : Type} (g : List (String × α))
    (k : String) (v : α) (h : lookupObj g k ≠ none) :
    (upsert g k v).map Prod.fst = g.map Prod.fst := by
  induction g with
  | nil => simp [lookupObj] at h
  | cons hd tl ih =>
    obtain ⟨k0, v0⟩ := hd
    by_cases hk : k0 = k
    · subst hk
      simp [upsert]
    · rw [lookupObj, if_neg hk] at h
      simp [upsert, hk, ih h]

theorem nodupKeys_upsert {α : Type} (g : List (String × α)) (k : String)
    (v : α) (h : (g.map Prod.fst).Nodup) :
    ((upsert g k v).map Prod.fst).Nodup := by
  by_cases hl : lookupObj g k = none
  · rw [upsert_eq_append_of_lookup_none g k v hl]
    have hk : k ∉ g.map Prod.fst := (lookupObj_eq_none_iff g k).mp hl
    simp [List.nodup_append, h, hk]
  · rw [keys_upsert_of_lookup_some g k v hl]
    exact h

theorem mem_upsert {α : Type} (g : List (String × α)) (k : String) (v : α)
    (e : String × α) (h : e ∈ upsert g k v) : e ∈ g ∨ e = (k, v) := by
  induction g with
  | nil =>
    simp [upsert] at h
    exact Or.inr h
  | cons hd tl ih =>
    obtain ⟨k0, v0⟩ := hd
    by_cases hk : k0 = k
    · rw [upsert, if_pos hk] at h
      rcases List.mem_cons.mp h with h | h
      · exact Or.inr h
      · exact Or.inl (List.mem_cons_of_mem _ h)
    · rw [upsert, if_neg hk] at h
      rcases List.mem_cons.mp h with h | h
      · exact Or.inl (h ▸ List.mem_cons_self _ _)
      · rcases ih h with h | h
        · exact Or.inl (List.mem_cons_of_mem _ h)
        · exact Or.inr h

theorem lookupObj_of_mem {α : Type} (g : List (String × α)) (k : String)
    (v : α) (hn : (g.map Prod.fst).Nodup) (h : (k, v) ∈ g) :
    lookupObj g k = some v := by
  induction g with
  | nil => simp at h
  | cons hd tl ih =>
    obtain ⟨k0, v0⟩ := hd
    rw [List.map_cons] at hn
    have hn1 := List.nodup_cons.mp hn
    rcases List.mem_cons.mp h with h | h
    · cases h
      simp [lookupObj]
    · by_cases hk : k0 = k
      · subst hk
        have : k0 ∈ tl.map Prod.fst := List.mem_map.mpr ⟨(k0, v), h, rfl⟩
        exact absurd this hn1.1
      · rw [lookupObj, if_neg hk]
        exact ih hn1.2 h

theorem mem_of_lookupObj {α : Type} (g : List (String × α)) (k : String)
    (v : α) (h : lookupObj g k = some v) : (k, v) ∈ g := by
  induction g with
  | nil => simp [lookupObj] at h
  | cons hd tl ih =>
    obtain ⟨k0, v0⟩ := hd
    by_cases hk : k0 = k
    · rw [lookupObj, if_pos hk] at h
      injection h with h
      subst hk h
      exact List.mem_cons_self _ _
    · rw [lookupObj, if_neg hk] at h
      exact List.mem_cons_of_mem _ (ih h)

theorem countP_split {α : Type} (l : List α) (p q : α → Bool) :
    l.countP p =
      l.countP (fun a => p a && q a) + l.countP (fun a => p a && !q a) := by
  induction l with
  | nil => simp
  | cons a l ih =>
    by_cases hp : p a = true <;> by_cases hq : q a = true <;>
      simp [List.countP_cons, hp, hq, ih] <;> omega

theorem countP_upsert_pred_eq {α : Type} (g : List (String × α)) (k : String)
    (v v0 : α) (p : String × α → Bool) (h : lookupObj g k = some v0)
    (hp : p (k, v) = p (k, v0)) :
    (upsert g k v).countP p = g.countP p := by
  induction g with
  | nil => simp [lookupObj] at h
  | cons hd tl ih =>
    obtain ⟨k0, v1⟩ := hd
    by_cases hk : k0 = k
    · rw [lookupObj, if_pos hk] at h
      injection h with h
      subst hk h
      simp [upsert, List.countP_cons, hp]
    · rw [lookupObj, if_neg hk] at h
      simp [upsert, hk, List.countP_cons, ih h]

/-- The keyable parents of the graph's active GeneratedEnvkeys, one
occurrence per active credential node. -/
def activeParentsList (g : OrgGraph) : List String :=
  g.filterMap (fun e =>
    match e.2 with
    | GraphObject.generatedEnvkey ge =>
      if ge.isActive then some ge.keyableParentId else none
    | _ => none)

/-- The total number of active GeneratedEnvkey nodes, of every
keyable-parent type. -/
def totalActiveEnvkeyCount (g : OrgGraph) : Nat :=
  countActiveEnvkeysP g (fun _ => true)

theorem length_activeParentsList (g : OrgGraph) :
    (activeParentsList g).length = totalActiveEnvkeyCount g := by
  induction g with
  | nil => rfl
  | cons hd tl ih =>
    obtain ⟨k0, v0⟩ := hd
    simp only [activeParentsList, totalActiveEnvkeyCount,
      countActiveEnvkeysP] at ih
    cases v0
    case generatedEnvkey ge =>
      by_cases ha : ge.isActive = true <;>
        simp [activeParentsList, totalActiveEnvkeyCount, countActiveEnvkeysP,
          List.countP_cons, List.filterMap_cons, ha, ih]
    all_goals
      simpa [activeParentsList, totalActiveEnvkeyCount, countActiveEnvkeysP,
        List.countP_cons, List.filterMap_cons] using ih

theorem count_activeParentsList (g : OrgGraph) (keyableParentId : String) :
    (activeParentsList g).count keyableParentId =
      activeEnvkeysForParentCount g keyableParentId := by
  induction g with
  | nil => rfl
  | cons hd tl ih =>
    obtain ⟨k0, v0⟩ := hd
    simp only [activeParentsList, activeEnvkeysForParentCount,
      countActiveEnvkeysP] at ih
    cases v0
    case generatedEnvkey ge =>
      by_cases ha : ge.isActive = true
      · by_cases hp : ge.keyableParentId = keyableParentId
        · simp [activeParentsList, activeEnvkeysForParentCount,
            countActiveEnvkeysP, List.countP_cons, List.filterMap_cons,
            List.count_cons, ha, hp, ih]
        · have hp2 : ¬(keyableParentId = ge.keyableParentId) :=
            fun h => hp h.symm
          simp [activeParentsList, activeEnvkeysForParentCount,
            countActiveEnvkeysP, List.countP_cons, List.filterMap_cons,
            List.count_cons, ha, hp, hp2, ih]
      · simpa [activeParentsList, activeEnvkeysForParentCount,
          countActiveEnvkeysP, List.countP_cons, List.filterMap_cons, ha]
          using ih
    all_goals
      simpa [activeParentsList, activeEnvkeysForParentCount,
        countActiveEnvkeysP, List.countP_cons, List.filterMap_cons] using ih

theorem atMostOne_iff_nodup_activeParents (g : OrgGraph) :
    atMostOneActivePerParent g ↔ (activeParentsList g).Nodup := by
  rw [List.nodup_iff_count_le_one]
  constructor
  · intro h pid
    rw [count_activeParentsList]
    exact h pid
  · intro h pid
    rw [← count_activeParentsList]
    exact h pid

theorem activeIndex_foldl_length (g : OrgGraph) :
    ∀ acc : List (String × GeneratedEnvkey),
      (activeParentsList g).Nodup →
      (∀ p ∈ activeParentsList g, lookupObj acc p = none) →
      (g.foldl activeIndexStep acc).length =
        acc.length + (activeParentsList g).length := by
  induction g with
  | nil =>
    intro acc _ _
    simp [activeParentsList]
  | cons hd tl ih =>
    intro acc hn hacc
    obtain ⟨k0, v0⟩ := hd
    rw [List.foldl_cons]
    cases v0
    case generatedEnvkey ge =>
      by_cases ha : ge.isActive = true
      · have hplist :
            activeParentsList ((k0, GraphObject.generatedEnvkey ge) :: tl) =
              ge.keyableParentId :: activeParentsList tl := by
          simp [activeParentsList, List.filterMap_cons, ha]
        rw [hplist] at hn hacc
        have hlookup : lookupObj acc ge.keyableParentId = none :=
          hacc _ (List.mem_cons_self _ _)
        have hstep :
            activeIndexStep acc (k0, GraphObject.generatedEnvkey ge) =
              upsert acc ge.keyableParentId ge := by
          simp [activeIndexStep, ha]
        rw [hstep]
        have hn2 := List.nodup_cons.mp hn
        have hacc2 : ∀ p ∈ activeParentsList tl,
            lookupObj (upsert acc ge.keyableParentId ge) p = none := by
          intro p hp
          have hpne : p ≠ ge.keyableParentId := fun h => hn2.1 (h ▸ hp)
          rw [lookupObj_upsert_ne acc _ p ge hpne]
          exact hacc p (List.mem_cons_of_mem _ hp)
        rw [ih (upsert acc ge.keyableParentId ge) hn2.2 hacc2]
        rw [upsert_eq_append_of_lookup_none acc _ ge hlookup]
        rw [hplist]
        simp
        omega
      · have hplist :
            activeParentsList ((k0, GraphObject.generatedEnvkey ge) :: tl) =
              activeParentsList tl := by
          simp [activeParentsList, List.filterMap_cons, ha]
        rw [hplist] at hn hacc
        have hstep :
            activeIndexStep acc (k0, GraphObject.generatedEnvkey ge) = acc := by
          simp [activeIndexStep, ha]
        rw [hstep, ih acc hn hacc, hplist]
    all_goals {
      simp only [activeIndexStep]
      simp only [activeParentsList, List.filterMap_cons] at hn hacc ⊢
      simp only [activeParentsList] at ih
      exact ih acc hn hacc }

theorem activeIndex_foldl_lookup_sound (g : OrgGraph) :
    ∀ (acc : List (String × GeneratedEnvkey)) (pid : String)
      (ge : GeneratedEnvkey),
      lookupObj (g.foldl activeIndexStep acc) pid = some ge →
      lookupObj acc pid = some ge ∨
        ((∃ k, (k, GraphObject.generatedEnvkey ge) ∈ g) ∧
          ge.isActive = true ∧ ge.keyableParentId = pid) := by
  induction g with
  | nil =>
    intro acc pid ge h
    exact Or.inl h
  | cons hd tl ih =>
    intro acc pid ge h
    obtain ⟨k0, v0⟩ := hd
    rw [List.foldl_cons] at h
    cases v0
    case generatedEnvkey ge0 =>
      by_cases ha : ge0.isActive = true
      · rw [show activeIndexStep acc (k0, GraphObject.generatedEnvkey ge0) =
            upsert acc ge0.keyableParentId ge0 from by
          simp [activeIndexStep, ha]] at h
        rcases ih _ pid ge h with h1 | h1
        · by_cases hpid : pid = ge0.keyableParentId
          · subst hpid
            rw [lookupObj_upsert_self] at h1
            injection h1 with h1
            subst h1
            exact Or.inr ⟨⟨k0, List.mem_cons_self _ _⟩, ha, rfl⟩
          · rw [lookupObj_upsert_ne acc _ pid ge0 hpid] at h1
            exact Or.inl h1
        · obtain ⟨⟨k, hk⟩, h2, h3⟩ := h1
          exact Or.inr ⟨⟨k, List.mem_cons_of_mem _ hk⟩, h2, h3⟩
      · rw [show activeIndexStep acc (k0, GraphObject.generatedEnvkey ge0) =
            acc from by simp [activeIndexStep, ha]] at h
        rcases ih _ pid ge h with h1 | h1
        · exact Or.inl h1
        · obtain ⟨⟨k, hk⟩, h2, h3⟩ := h1
          exact Or.inr ⟨⟨k, List.mem_cons_of_mem _ hk⟩, h2, h3⟩
    all_goals {
      simp only [activeIndexStep] at h
      rcases ih _ pid ge h with h1 | h1
      · exact Or.inl h1
      · obtain ⟨⟨k, hk⟩, h2, h3⟩ := h1
        exact Or.inr ⟨⟨k, List.mem_cons_of_mem _ hk⟩, h2, h3⟩ }

theorem activeIndex_foldl_lookup_none (g : OrgGraph) :
    ∀ (acc : List (String × GeneratedEnvkey)) (pid : String),
      lookupObj (g.foldl activeIndexStep acc) pid = none →
      lookupObj acc pid = none ∧ pid ∉ activeParentsList g := by
  induction g with
  | nil =>
    intro acc pid h
    simpa [activeParentsList] using h
  | cons hd tl ih =>
    intro acc pid h
    obtain ⟨k0, v0⟩ := hd
    rw [List.foldl_cons] at h
    cases v0
    case generatedEnvkey ge0 =>
      by_cases ha : ge0.isActive = true
      · rw [show activeIndexStep acc (k0, GraphObject.generatedEnvkey ge0) =
            upsert acc ge0.keyableParentId ge0 from by
          simp [activeIndexStep, ha]] at h
        obtain ⟨h1, h2⟩ := ih _ pid h
        by_cases hpid : pid = ge0.keyableParentId
        · subst hpid
          rw [lookupObj_upsert_self] at h1
          exact absurd h1 (by simp)
        · rw [lookupObj_upsert_ne acc _ pid ge0 hpid] at h1
          refine ⟨h1, ?_⟩
          simp [activeParentsList, List.filterMap_cons, ha]
          exact ⟨fun hx => hpid hx, by
            simpa [activeParentsList] using h2⟩
      · rw [show activeIndexStep acc (k0, GraphObject.generatedEnvkey ge0) =
            acc from by simp [activeIndexStep, ha]] at h
        obtain ⟨h1, h2⟩ := ih _ pid h
        refine ⟨h1, ?_⟩
        simpa [activeParentsList, List.filterMap_cons, ha] using h2
    all_goals {
      simp only [activeIndexStep] at h
      obtain ⟨h1, h2⟩ := ih _ pid h
      refine ⟨h1, ?_⟩
      simpa [activeParentsList, List.filterMap_cons] using h2 }

theorem numActiveEnvkeys_eq_totalActive (g : OrgGraph)
    (h : atMostOneActivePerParent g) :
    numActiveEnvkeys g = totalActiveEnvkeyCount g := by
  have hn := (atMostOne_iff_nodup_activeParents g).mp h
  have hlen := activeIndex_foldl_length g [] hn (fun p _ => rfl)
  rw [numActiveEnvkeys, getActiveGeneratedEnvkeysByKeyableParentId, hlen]
  simpa using length_activeParentsList g

theorem activeEnvkeyForParent_sound (g : OrgGraph) (pid : String)
    (ge : GeneratedEnvkey) (h : activeEnvkeyForParent g pid = some ge) :
    (∃ k, (k, GraphObject.generatedEnvkey ge) ∈ g) ∧
      ge.isActive = true ∧ ge.keyableParentId = pid := by
  rcases activeIndex_foldl_lookup_sound g [] pid ge h with h1 | h1
  · exact absurd h1 (by simp [lookupObj])
  · exact h1

theorem activeEnvkeyForParent_none_count (g : OrgGraph) (pid : String)
    (h : activeEnvkeyForParent g pid = none) :
    activeEnvkeysForParentCount g pid = 0 := by
  have h2 := (activeIndex_foldl_lookup_none g [] pid h).2
  rw [← count_activeParentsList]
  exact List.count_eq_zero_of_not_mem h2

theorem lookupObj_mapEntries {α β : Type} (g : List (String × α))
    (f : String → α → β) (k : String) :
    lookupObj (g.map (fun e => (e.1, f e.1 e.2))) k =
      (lookupObj g k).map (f k) := by
  induction g with
  | nil => rfl
  | cons hd tl ih =>
    obtain ⟨k0, v0⟩ := hd
    by_cases hk : k0 = k
    · subst hk
      simp [lookupObj]
    · simp [lookupObj, hk, ih]

theorem keys_mapEntries {α β : Type} (g : List (String × α))
    (f : String → α → β) :
    (g.map (fun e => (e.1, f e.1 e.2))).map Prod.fst = g.map Prod.fst := by
  induction g with
  | nil => rfl
  | cons hd tl ih => simp [ih]

theorem lookupObj_deleteGraphObjects (g : OrgGraph) (ids : List String)
    (now : Nat) (k : String) :
    lookupObj (deleteGraphObjects g ids now) k =
      (lookupObj g k).map
        (deleteAdjustEntry ids now
          (g.countP (fun e => decide (e.1 ∈ ids) && isActiveServerEnvkeyObj e.2))
          k) := by
  rw [deleteGraphObjects]
  exact lookupObj_mapEntries g _ k

theorem countActiveEnvkeysP_deleteGraphObjects (g : OrgGraph)
    (ids : List String) (now : Nat) (p : GeneratedEnvkey → Bool) :
    countActiveEnvkeysP (deleteGraphObjects g ids now) p =
      g.countP (fun e =>
        (match e.2 with
          | GraphObject.generatedEnvkey ge => ge.isActive && p ge
          | _ => false) && !(decide (e.1 ∈ ids))) := by
  rw [countActiveEnvkeysP, deleteGraphObjects, List.countP_map]
  apply List.countP_congr
  intro e _
  obtain ⟨k0, v0⟩ := e
  by_cases hc : k0 ∈ ids
  · cases v0 <;>
      simp [Function.comp, deleteAdjustEntry, hc, markDeleted,
        GeneratedEnvkey.isActive]
  · cases v0
    case _ o =>
      by_cases hcnt :
          0 < g.countP (fun e => decide (e.1 ∈ ids) && isActiveServerEnvkeyObj e.2) <;>
        simp [Function.comp, deleteAdjustEntry, hc, hcnt]
    all_goals
      simp [Function.comp, deleteAdjustEntry, hc]

theorem countActiveEnvkeysP_upsert_fresh (g : OrgGraph) (k : String)
    (v : GraphObject) (p : GeneratedEnvkey → Bool)
    (h : lookupObj g k = none) :
    countActiveEnvkeysP (upsert g k v) p =
      countActiveEnvkeysP g p +
        (match v with
          | GraphObject.generatedEnvkey ge => if ge.isActive && p ge then 1 else 0
          | _ => 0) := by
  rw [upsert_eq_append_of_lookup_none g k v h, countActiveEnvkeysP,
    List.countP_append, countActiveEnvkeysP]
  cases v <;> simp [List.countP_cons]

theorem countActiveEnvkeysP_upsert_org (g : OrgGraph) (k : String)
    (o o0 : Org) (p : GeneratedEnvkey → Bool)
    (h : lookupObj g k = some (GraphObject.org o0)) :
    countActiveEnvkeysP (upsert g k (GraphObject.org o)) p =
      countActiveEnvkeysP g p :=
  countP_upsert_pred_eq g k _ _ _ h rfl

theorem countP_single_key (g : OrgGraph) (k : String) (v : GraphObject)
    (q : String × GraphObject → Bool) (hn : (g.map Prod.fst).Nodup)
    (h : lookupObj g k = some v) :
    g.countP (fun e => q e && decide (e.1 = k)) = if q (k, v) then 1 else 0 := by
  induction g with
  | nil => simp [lookupObj] at h
  | cons hd tl ih =>
    obtain ⟨k0, v0⟩ := hd
    rw [List.map_cons] at hn
    have hn1 := List.nodup_cons.mp hn
    by_cases hk : k0 = k
    · subst hk
      rw [lookupObj, if_pos rfl] at h
      injection h with h
      subst h
      have hzero : tl.countP (fun e => q e && decide (e.1 = k0)) = 0 := by
        rw [List.countP_eq_zero]
        intro e he
        have : e.1 ≠ k0 := by
          intro hx
          exact hn1.1 (List.mem_map.mpr ⟨e, he, hx⟩)
        simp [this]
      simp [List.countP_cons, hzero]
    · rw [lookupObj, if_neg hk] at h
      simp [List.countP_cons, hk, ih hn1.2 h]

theorem le_foldr_max (l : List Nat) (x : Nat) (h : x ∈ l) :
    x ≤ l.foldr Nat.max 0 := by
  induction l with
  | nil => simp at h
  | cons a l ih =>
    rcases List.mem_cons.mp h with h | h
    · subst h
      exact Nat.le_max_left _ _
    · exact Nat.le_trans (ih h) (Nat.le_max_right _ _)

theorem lookupObj_freshId (g : OrgGraph) : lookupObj g (freshId g) = none := by
  rw [lookupObj_eq_none_iff]
  intro hmem
  have hlen : (freshId g).length =
      1 + (g.map (fun e => e.1.length)).foldr Nat.max 0 := by
    rw [freshId]
    show (List.replicate (1 + (g.map (fun e => e.1.length)).foldr Nat.max 0)
      'x').length = _
    rw [List.length_replicate]
  have hle : (freshId g).length ≤ (g.map (fun e => e.1.length)).foldr Nat.max 0 :=
    le_foldr_max _ _ (by
      rcases List.mem_map.mp hmem with ⟨e, he, hx⟩
      exact List.mem_map.mpr ⟨e, he, by rw [hx]⟩)
  omega

theorem objId_markDeleted (v : GraphObject) (now : Nat) :
    GraphObject.objId (markDeleted v now) = GraphObject.objId v := by
  cases v <;> rfl

theorem objId_deleteAdjustEntry (ids : List String) (now cnt : Nat)
    (k : String) (v : GraphObject) :
    GraphObject.objId (deleteAdjustEntry ids now cnt k v) =
      GraphObject.objId v := by
  by_cases hk : k ∈ ids
  · cases v <;> simp [deleteAdjustEntry, hk, markDeleted, GraphObject.objId]
  · cases v
    case _ o =>
      by_cases hc : cnt > 0 <;>
        simp [deleteAdjustEntry, hk, hc, GraphObject.objId]
    all_goals simp [deleteAdjustEntry, hk, GraphObject.objId]

theorem keysMatchIds_deleteGraphObjects (g : OrgGraph) (ids : List String)
    (now : Nat) (h : keysMatchIds g) :
    keysMatchIds (deleteGraphObjects g ids now) := by
  intro e he
  rw [deleteGraphObjects] at he
  rcases List.mem_map.mp he with ⟨e0, he0, hx⟩
  subst hx
  rw [objId_deleteAdjustEntry]
  exact h e0 he0

theorem nodupKeys_deleteGraphObjects (g : OrgGraph) (ids : List String)
    (now : Nat) (h : (g.map Prod.fst).Nodup) :
    ((deleteGraphObjects g ids now).map Prod.fst).Nodup := by
  rw [deleteGraphObjects, keys_mapEntries]
  exact h

theorem countActiveEnvkeysP_deleteGraphObjects_le (g : OrgGraph)
    (ids : List String) (now : Nat) (p : GeneratedEnvkey → Bool) :
    countActiveEnvkeysP (deleteGraphObjects g ids now) p ≤
      countActiveEnvkeysP g p := by
  rw [countActiveEnvkeysP_deleteGraphObjects]
  exact List.countP_mono_left (fun e _ hx => by
    revert hx
    cases hv : e.2 <;> simp_all)

theorem atMostOne_deleteGraphObjects (g : OrgGraph) (ids : List String)
    (now : Nat) (h : atMostOneActivePerParent g) :
    atMostOneActivePerParent (deleteGraphObjects g ids now) := by
  intro pid
  exact Nat.le_trans (countActiveEnvkeysP_deleteGraphObjects_le g ids now _)
    (h pid)

theorem GraphWF_deleteGraphObjects (g : OrgGraph) (ids : List String)
    (now : Nat) (h : GraphWF g) : GraphWF (deleteGraphObjects g ids now) :=
  ⟨keysMatchIds_deleteGraphObjects g ids now h.1,
    nodupKeys_deleteGraphObjects g ids now h.2.1,
    atMostOne_deleteGraphObjects g ids now h.2.2⟩

theorem countActiveEnvkeysP_delete_single (g : OrgGraph) (exId : String)
    (ex : GeneratedEnvkey) (now : Nat) (p : GeneratedEnvkey → Bool)
    (hn : (g.map Prod.fst).Nodup)
    (h : lookupObj g exId = some (GraphObject.generatedEnvkey ex)) :
    countActiveEnvkeysP (deleteGraphObjects g [exId] now) p +
      (if ex.isActive && p ex then 1 else 0) = countActiveEnvkeysP g p := by
  rw [countActiveEnvkeysP_deleteGraphObjects, countActiveEnvkeysP]
  have hsplit : g.countP (fun e =>
        match e.2 with
        | GraphObject.generatedEnvkey ge => ge.isActive && p ge
        | _ => false) =
      g.countP (fun e =>
        (match e.2 with
          | GraphObject.generatedEnvkey ge => ge.isActive && p ge
          | _ => false) && decide (e.1 ∈ [exId])) +
      g.countP (fun e =>
        (match e.2 with
          | GraphObject.generatedEnvkey ge => ge.isActive && p ge
          | _ => false) && !(decide (e.1 ∈ [exId]))) :=
    countP_split g _ _
  have hconv : g.countP (fun e =>
      (match e.2 with
        | GraphObject.generatedEnvkey ge => ge.isActive && p ge
        | _ => false) && decide (e.1 ∈ [exId])) =
      g.countP (fun e =>
        (match e.2 with
          | GraphObject.generatedEnvkey ge => ge.isActive && p ge
          | _ => false) && decide (e.1 = exId)) :=
    List.countP_congr (fun e _ => by simp)
  have hsingle : g.countP (fun e =>
      (match e.2 with
        | GraphObject.generatedEnvkey ge => ge.isActive && p ge
        | _ => false) && decide (e.1 = exId)) =
      if ex.isActive && p ex then 1 else 0 :=
    countP_single_key g exId (GraphObject.generatedEnvkey ex)
      (fun e =>
        match e.2 with
        | GraphObject.generatedEnvkey ge => ge.isActive && p ge
        | _ => false) hn h
  rw [hconv, hsingle] at hsplit
  omega

theorem serverCount_le_totalActive (g : OrgGraph) :
    serverEnvkeyNodeCount g ≤ totalActiveEnvkeyCount g := by
  rw [serverEnvkeyNodeCount, totalActiveEnvkeyCount, countActiveEnvkeysP,
    countActiveEnvkeysP]
  exact List.countP_mono_left (fun e _ hx => by
    revert hx
    cases hv : e.2 <;> simp_all)

/-! ## Handler characterizations -/

theorem generateKey_eq (g : OrgGraph) (auth : AuthContext) (now : Nat)
    (payload : GenerateKeyPayload) (newId : String) (pobj : GraphObject)
    (kp : KeyableParentView) (org0 : Org)
    (hkp : lookupObj g payload.keyableParentId = some pobj)
    (hkpv : asKeyableParent pobj = some kp)
    (horg : lookupObj g auth.orgId = some (GraphObject.org org0)) :
    generateKey g auth now payload newId =
      some
        (upsert
          (upsert g newId
            (GraphObject.generatedEnvkey
              (mkGeneratedEnvkey auth now payload newId kp)))
          auth.orgId (generateKeyOrgUpdate org0 payload now),
        mkGeneratedEnvkey auth now payload newId kp) := by
  rw [generateKey, hkp]
  rw [show (some pobj >>= asKeyableParent) = asKeyableParent pobj from rfl]
  rw [hkpv, horg]
  rfl

theorem generateKeyGraphHandler_eq_existing (g : OrgGraph)
    (auth : AuthContext) (now : Nat) (payload : GenerateKeyPayload)
    (newId : String) (pobj : GraphObject) (kp : KeyableParentView)
    (org0 : Org) (eobj : GraphObject) (env : EnvironmentNode)
    (existing : GeneratedEnvkey)
    (hkp : lookupObj g payload.keyableParentId = some pobj)
    (hkpv : asKeyableParent pobj = some kp)
    (horg : lookupObj g auth.orgId = some (GraphObject.org org0))
    (henv : lookupObj g kp.environmentId = some eobj)
    (henvv : asEnvironment eobj = some env)
    (hidx : activeEnvkeyForParent g payload.keyableParentId = some existing) :
    generateKeyGraphHandler g auth now payload newId =
      some
        { graph :=
            deleteGraphObjects
              (upsert
                (upsert g newId
                  (GraphObject.generatedEnvkey
                    (mkGeneratedEnvkey auth now payload newId kp)))
                auth.orgId (generateKeyOrgUpdate org0 payload now))
              [existing.id] now
          transactionItems := some ⟨[⟨"envkey|" ++ existing.envkeyIdPart⟩]⟩
          clearEnvkeySockets := some [⟨auth.orgId, existing.id⟩]
          logTargetIds :=
            [newId, env.envParentId, payload.keyableParentId,
              env.environmentRoleId] ++
              (if kp.kType == KeyableParentType.localKey then ["locals"]
              else if env.isSub then [environmentCompositeId env]
              else [])
          handlerCreatedId := some newId } := by
  rw [generateKeyGraphHandler,
    generateKey_eq g auth now payload newId pobj kp org0 hkp hkpv horg]
  simp only [hidx, hkp, hkpv, henv, henvv, Option.bind_eq_bind, Option.bind]
  rfl

theorem generateKeyGraphHandler_eq_fresh (g : OrgGraph)
    (auth : AuthContext) (now : Nat) (payload : GenerateKeyPayload)
    (newId : String) (pobj : GraphObject) (kp : KeyableParentView)
    (org0 : Org) (eobj : GraphObject) (env : EnvironmentNode)
    (hkp : lookupObj g payload.keyableParentId = some pobj)
    (hkpv : asKeyableParent pobj = some kp)
    (horg : lookupObj g auth.orgId = some (GraphObject.org org0))
    (henv : lookupObj g kp.environmentId = some eobj)
    (henvv : asEnvironment eobj = some env)
    (hidx : activeEnvkeyForParent g payload.keyableParentId = none) :
    generateKeyGraphHandler g auth now payload newId =
      some
        { graph :=
            upsert
              (upsert g newId
                (GraphObject.generatedEnvkey
                  (mkGeneratedEnvkey auth now payload newId kp)))
              auth.orgId (generateKeyOrgUpdate org0 payload now)
          transactionItems := none
          clearEnvkeySockets := none
          logTargetIds :=
            [newId, env.envParentId, payload.keyableParentId,
              env.environmentRoleId] ++
              (if kp.kType == KeyableParentType.localKey then ["locals"]
              else if env.isSub then [environmentCompositeId env]
              else [])
          handlerCreatedId := some newId } := by
  rw [generateKeyGraphHandler,
    generateKey_eq g auth now payload newId pobj kp org0 hkp hkpv horg]
  simp only [hidx, hkp, hkpv, henv, henvv, Option.bind_eq_bind, Option.bind]
  rfl

theorem mkGeneratedEnvkey_isActive (auth : AuthContext) (now : Nat)
    (payload : GenerateKeyPayload) (newId : String)
    (kp : KeyableParentView) :
    (mkGeneratedEnvkey auth now payload newId kp).isActive = true := rfl

theorem countActiveEnvkeysP_upsert_generateKeyOrgUpdate (g : OrgGraph)
    (k : String) (org0 : Org) (payload : GenerateKeyPayload) (now : Nat)
    (p : GeneratedEnvkey → Bool)
    (h : lookupObj g k = some (GraphObject.org org0)) :
    countActiveEnvkeysP (upsert g k (generateKeyOrgUpdate org0 payload now)) p =
      countActiveEnvkeysP g p := by
  rw [generateKeyOrgUpdate]
  by_cases hs : (payload.keyableParentType == KeyableParentType.server) = true
  · rw [if_pos hs]
    exact countP_upsert_pred_eq g k _ _ _ h rfl
  · rw [if_neg hs]
    exact countP_upsert_pred_eq g k _ _ _ h rfl

theorem keysMatchIds_upsert (g : OrgGraph) (k : String) (v : GraphObject)
    (h : keysMatchIds g) (hv : GraphObject.objId v = k) :
    keysMatchIds (upsert g k v) := by
  intro e he
  rcases mem_upsert g k v e he with he | he
  · exact h e he
  · subst he
    exact hv

theorem generateKey_inv (g : OrgGraph) (auth : AuthContext) (now : Nat)
    (payload : GenerateKeyPayload) (newId : String)
    (pr : OrgGraph × GeneratedEnvkey)
    (h : generateKey g auth now payload newId = some pr) :
    ∃ pobj kp org0,
      lookupObj g payload.keyableParentId = some pobj ∧
      asKeyableParent pobj = some kp ∧
      lookupObj g auth.orgId = some (GraphObject.org org0) := by
  rcases hpo : lookupObj g payload.keyableParentId with _ | pobj
  · rw [generateKey, hpo] at h
    simp only [Option.bind_eq_bind, Option.bind] at h
    exact absurd h (by simp)
  · rcases hkv : asKeyableParent pobj with _ | kp
    · rw [generateKey, hpo] at h
      simp only [Option.bind_eq_bind, Option.bind, hkv] at h
      exact absurd h (by simp)
    · rcases horg : lookupObj g auth.orgId with _ | oobj
      · rw [generateKey, hpo] at h
        simp only [Option.bind_eq_bind, Option.bind, hkv, horg] at h
        exact absurd h (by simp)
      · cases oobj
        case _ org0 => exact ⟨pobj, kp, org0, rfl, hkv, rfl⟩
        all_goals {
          rw [generateKey, hpo] at h
          simp only [Option.bind_eq_bind, Option.bind, hkv, horg] at h
          exact absurd h (by simp) }

theorem generateKeyGraphHandler_inv (g : OrgGraph) (auth : AuthContext)
    (now : Nat) (payload : GenerateKeyPayload) (newId : String)
    (res : GraphHandlerResult)
    (h : generateKeyGraphHandler g auth now payload newId = some res) :
    ∃ pobj kp org0 eobj env,
      lookupObj g payload.keyableParentId = some pobj ∧
      asKeyableParent pobj = some kp ∧
      lookupObj g auth.orgId = some (GraphObject.org org0) ∧
      lookupObj g kp.environmentId = some eobj ∧
      asEnvironment eobj = some env := by
  rcases hgen : generateKey g auth now payload newId with _ | pr
  · rw [generateKeyGraphHandler, hgen] at h
    exact absurd h (by simp)
  · obtain ⟨pobj, kp, org0, hpo, hkv, horg⟩ :=
      generateKey_inv g auth now payload newId pr hgen
    rcases heo : lookupObj g kp.environmentId with _ | eobj
    · exfalso
      rw [generateKeyGraphHandler, hgen] at h
      obtain ⟨gr, ge⟩ := pr
      simp only [hpo, Option.bind_eq_bind, Option.bind, hkv, heo] at h
      exact absurd h (by simp)
    · rcases hev : asEnvironment eobj with _ | env
      · exfalso
        rw [generateKeyGraphHandler, hgen] at h
        obtain ⟨gr, ge⟩ := pr
        simp only [hpo, Option.bind_eq_bind, Option.bind, hkv, heo, hev] at h
        exact absurd h (by simp)
      · exact ⟨pobj, kp, org0, eobj, env, hpo, hkv, horg, heo, hev⟩

/-- The net effect of the `GENERATE_KEY` handler on every active-envkey
count: the new credential is added and, when the keyable parent already had
an active one, that one stops counting. -/
theorem generateKeyGraphHandler_count (g : OrgGraph) (auth : AuthContext)
    (now : Nat) (payload : GenerateKeyPayload) (newId : String)
    (res : GraphHandlerResult) (p : GeneratedEnvkey → Bool)
    (pobj : GraphObject) (kp : KeyableParentView) (org0 : Org)
    (eobj : GraphObject) (env : EnvironmentNode)
    (hWFk : keysMatchIds g) (hWFn : (g.map Prod.fst).Nodup)
    (hfresh : lookupObj g newId = none)
    (hpo : lookupObj g payload.keyableParentId = some pobj)
    (hkv : asKeyableParent pobj = some kp)
    (horg : lookupObj g auth.orgId = some (GraphObject.org org0))
    (heo : lookupObj g kp.environmentId = some eobj)
    (hev : asEnvironment eobj = some env)
    (hres : generateKeyGraphHandler g auth now payload newId = some res) :
    (match activeEnvkeyForParent g payload.keyableParentId with
      | some ex =>
        countActiveEnvkeysP res.graph p + (if p ex then 1 else 0) =
          countActiveEnvkeysP g p +
            (if p (mkGeneratedEnvkey auth now payload newId kp) then 1 else 0)
      | none =>
        countActiveEnvkeysP res.graph p =
          countActiveEnvkeysP g p +
            (if p (mkGeneratedEnvkey auth now payload newId kp) then 1 else 0)) := by
  have hne_org_new : ¬(auth.orgId = newId) := by
    intro hx
    rw [hx, hfresh] at horg
    exact absurd horg (by simp)
  have h2 : lookupObj (upsert g newId
      (GraphObject.generatedEnvkey (mkGeneratedEnvkey auth now payload newId kp)))
        auth.orgId = some (GraphObject.org org0) := by
    rw [lookupObj_upsert_ne g newId auth.orgId _ hne_org_new]
    exact horg
  have hG1 : countActiveEnvkeysP
      (upsert
        (upsert g newId
          (GraphObject.generatedEnvkey (mkGeneratedEnvkey auth now payload newId kp)))
        auth.orgId (generateKeyOrgUpdate org0 payload now)) p =
      countActiveEnvkeysP g p +
        (if p (mkGeneratedEnvkey auth now payload newId kp) then 1 else 0) := by
    rw [countActiveEnvkeysP_upsert_generateKeyOrgUpdate _ _ org0 payload now p h2,
      countActiveEnvkeysP_upsert_fresh g newId _ p hfresh]
    simp [mkGeneratedEnvkey_isActive]
  rcases hidx : activeEnvkeyForParent g payload.keyableParentId with _ | ex
  · rw [generateKeyGraphHandler_eq_fresh g auth now payload newId pobj kp org0
      eobj env hpo hkv horg heo hev hidx] at hres
    injection hres with hres
    subst hres
    exact hG1
  · rw [generateKeyGraphHandler_eq_existing g auth now payload newId pobj kp
      org0 eobj env ex hpo hkv horg heo hev hidx] at hres
    injection hres with hres
    subst hres
    obtain ⟨⟨k, hkmem⟩, hact, hparent⟩ :=
      activeEnvkeyForParent_sound g payload.keyableParentId ex hidx
    have hkid : ex.id = k := hWFk _ hkmem
    have hexlookup : lookupObj g ex.id = some (GraphObject.generatedEnvkey ex) := by
      rw [hkid]
      exact lookupObj_of_mem g k _ hWFn hkmem
    have hexne_new : ¬(ex.id = newId) := by
      intro hx
      rw [hx, hfresh] at hexlookup
      exact absurd hexlookup (by simp)
    have hexne_org : ¬(ex.id = auth.orgId) := by
      intro hx
      rw [hx, horg] at hexlookup
      exact absurd hexlookup (by simp)
    have hn1 : ((upsert g newId
        (GraphObject.generatedEnvkey (mkGeneratedEnvkey auth now payload newId kp))).map
          Prod.fst).Nodup :=
      nodupKeys_upsert g newId _ hWFn
    have hn2 : ((upsert
        (upsert g newId
          (GraphObject.generatedEnvkey (mkGeneratedEnvkey auth now payload newId kp)))
        auth.orgId (generateKeyOrgUpdate org0 payload now)).map Prod.fst).Nodup :=
      nodupKeys_upsert _ auth.orgId _ hn1
    have hl1 : lookupObj (upsert g newId
        (GraphObject.generatedEnvkey (mkGeneratedEnvkey auth now payload newId kp)))
          ex.id = some (GraphObject.generatedEnvkey ex) := by
      rw [lookupObj_upsert_ne g newId ex.id _ hexne_new]
      exact hexlookup
    have hl2 : lookupObj (upsert
        (upsert g newId
          (GraphObject.generatedEnvkey (mkGeneratedEnvkey auth now payload newId kp)))
        auth.orgId (generateKeyOrgUpdate org0 payload now)) ex.id =
        some (GraphObject.generatedEnvkey ex) := by
      rw [lookupObj_upsert_ne _ auth.orgId ex.id _ hexne_org]
      exact hl1
    have hdel := countActiveEnvkeysP_delete_single _ ex.id ex now p hn2 hl2
    rw [hG1] at hdel
    rw [hact] at hdel
    simpa using hdel

theorem mkGeneratedEnvkey_keyableParentId (auth : AuthContext) (now : Nat)
    (payload : GenerateKeyPayload) (newId : String) (kp : KeyableParentView) :
    (mkGeneratedEnvkey auth now payload newId kp).keyableParentId =
      payload.keyableParentId := rfl

theorem mkGeneratedEnvkey_keyableParentType (auth : AuthContext) (now : Nat)
    (payload : GenerateKeyPayload) (newId : String) (kp : KeyableParentView) :
    (mkGeneratedEnvkey auth now payload newId kp).keyableParentType =
      payload.keyableParentType := rfl

/-- The `GENERATE_KEY` handler preserves graph wellformedness, in
particular the single-active-credential invariant: the previously active
envkey of the keyable parent (if any) is deleted in the same result. -/
theorem generateKeyGraphHandler_preserves_WF (g : OrgGraph)
    (auth : AuthContext) (now : Nat) (payload : GenerateKeyPayload)
    (newId : String) (res : GraphHandlerResult)
    (hWF : GraphWF g) (hfresh : lookupObj g newId = none)
    (hres : generateKeyGraphHandler g auth now payload newId = some res) :
    GraphWF res.graph := by
  obtain ⟨hWFk, hWFn, hWFa⟩ := hWF
  obtain ⟨pobj, kp, org0, eobj, env, hpo, hkv, horg, heo, hev⟩ :=
    generateKeyGraphHandler_inv g auth now payload newId res hres
  have hcount := fun (q : String) =>
    generateKeyGraphHandler_count g auth now payload newId res
      (fun ge => ge.keyableParentId == q) pobj kp org0 eobj env hWFk hWFn
      hfresh hpo hkv horg heo hev hres
  have horgid : org0.id = auth.orgId :=
    hWFk _ (mem_of_lookupObj g auth.orgId _ horg)
  have hobk : GraphObject.objId (generateKeyOrgUpdate org0 payload now) =
      auth.orgId := by
    rw [generateKeyOrgUpdate]
    by_cases hs : (payload.keyableParentType == KeyableParentType.server) = true <;>
      simp [hs, GraphObject.objId, horgid]
  have hkm1 : keysMatchIds (upsert g newId
      (GraphObject.generatedEnvkey (mkGeneratedEnvkey auth now payload newId kp))) :=
    keysMatchIds_upsert g newId _ hWFk rfl
  have hkm2 : keysMatchIds (upsert
      (upsert g newId
        (GraphObject.generatedEnvkey (mkGeneratedEnvkey auth now payload newId kp)))
      auth.orgId (generateKeyOrgUpdate org0 payload now)) :=
    keysMatchIds_upsert _ auth.orgId _ hkm1 hobk
  have hn1 : ((upsert g newId
      (GraphObject.generatedEnvkey (mkGeneratedEnvkey auth now payload newId kp))).map
        Prod.fst).Nodup :=
    nodupKeys_upsert g newId _ hWFn
  have hn2 : ((upsert
      (upsert g newId
        (GraphObject.generatedEnvkey (mkGeneratedEnvkey auth now payload newId kp)))
      auth.orgId (generateKeyOrgUpdate org0 payload now)).map Prod.fst).Nodup :=
    nodupKeys_upsert _ auth.orgId _ hn1
  rcases hidx : activeEnvkeyForParent g payload.keyableParentId with _ | ex
  · have hres2 := (generateKeyGraphHandler_eq_fresh g auth now payload newId
      pobj kp org0 eobj env hpo hkv horg heo hev hidx).symm.trans hres
    injection hres2 with hres2
    have hgraph : res.graph = upsert
        (upsert g newId
          (GraphObject.generatedEnvkey (mkGeneratedEnvkey auth now payload newId kp)))
        auth.orgId (generateKeyOrgUpdate org0 payload now) := by
      rw [← hres2]
    refine ⟨?_, ?_, ?_⟩
    · rw [hgraph]
      exact hkm2
    · rw [hgraph]
      exact hn2
    · intro q
      have hq := hcount q
      simp only [hidx, mkGeneratedEnvkey_keyableParentId] at hq
      by_cases hqq : payload.keyableParentId = q
      · have h0 := activeEnvkeyForParent_none_count g payload.keyableParentId hidx
        rw [activeEnvkeysForParentCount] at h0
        rw [hqq] at h0
        rw [activeEnvkeysForParentCount, hq, h0]
        simp [hqq]
      · have hqb : (payload.keyableParentId == q) = false := by
          simp [hqq]
        rw [activeEnvkeysForParentCount, hq]
        simp only [hqb, Bool.false_eq_true, if_false, Nat.add_zero]
        simpa [activeEnvkeysForParentCount] using hWFa q
  · have hres2 := (generateKeyGraphHandler_eq_existing g auth now payload newId
      pobj kp org0 eobj env ex hpo hkv horg heo hev hidx).symm.trans hres
    injection hres2 with hres2
    have hgraph : res.graph = deleteGraphObjects
        (upsert
          (upsert g newId
            (GraphObject.generatedEnvkey (mkGeneratedEnvkey auth now payload newId kp)))
          auth.orgId (generateKeyOrgUpdate org0 payload now)) [ex.id] now := by
      rw [← hres2]
    refine ⟨?_, ?_, ?_⟩
    · rw [hgraph]
      exact keysMatchIds_deleteGraphObjects _ [ex.id] now hkm2
    · rw [hgraph]
      exact nodupKeys_deleteGraphObjects _ [ex.id] now hn2
    · intro q
      have hq := hcount q
      simp only [hidx, mkGeneratedEnvkey_keyableParentId] at hq
      obtain ⟨_, _, hparent⟩ :=
        activeEnvkeyForParent_sound g payload.keyableParentId ex hidx
      rw [hparent] at hq
      have hWq := hWFa q
      rw [activeEnvkeysForParentCount] at hWq
      rw [activeEnvkeysForParentCount]
      by_cases hc : (payload.keyableParentId == q) = true <;>
        simp [hc] at hq <;> omega

theorem revokeKeyGraphHandler_eq (g : OrgGraph) (auth : AuthContext)
    (now : Nat) (envkeyId : String) (ge : GeneratedEnvkey)
    (kpobj : GraphObject) (kp : KeyableParentView) (eobj : GraphObject)
    (env : EnvironmentNode)
    (hge : lookupObj g envkeyId = some (GraphObject.generatedEnvkey ge))
    (hkp : lookupObj g ge.keyableParentId = some kpobj)
    (hkpv : asKeyableParent kpobj = some kp)
    (henv : lookupObj g kp.environmentId = some eobj)
    (henvv : asEnvironment eobj = some env) :
    revokeKeyGraphHandler g auth now envkeyId =
      some
        { graph := deleteGraphObjects g [ge.id] now
          transactionItems := some ⟨[⟨"envkey|" ++ ge.envkeyIdPart⟩]⟩
          clearEnvkeySockets := some [⟨auth.orgId, ge.id⟩]
          logTargetIds :=
            [ge.id, ge.keyableParentId, env.envParentId,
              env.environmentRoleId] ++
              (if kp.kType == KeyableParentType.localKey then ["locals"]
              else if env.isSub then [environmentCompositeId env]
              else [])
          handlerCreatedId := none } := by
  rw [revokeKeyGraphHandler, hge]
  simp only [hkp, hkpv, henv, henvv, Option.bind_eq_bind, Option.bind]

theorem deleteServerGraphHandler_eq (g : OrgGraph) (auth : AuthContext)
    (now : Nat) (serverId : String) (server : Server) (eobj : GraphObject)
    (env : EnvironmentNode)
    (hs : lookupObj g serverId = some (GraphObject.server server))
    (henv : lookupObj g server.environmentId = some eobj)
    (henvv : asEnvironment eobj = some env) :
    deleteServerGraphHandler g auth now serverId =
      some
        { graph := getDeleteKeyableParentProducer serverId now g
          transactionItems :=
            (activeEnvkeyForParent g server.id).map
              (fun ge => ⟨[⟨"envkey|" ++ ge.envkeyIdPart⟩]⟩)
          clearEnvkeySockets :=
            (activeEnvkeyForParent g server.id).map
              (fun ge => [⟨auth.orgId, ge.id⟩])
          logTargetIds :=
            [server.id, env.envParentId, env.environmentRoleId] ++
              (if env.isSub then [environmentCompositeId env] else [])
          handlerCreatedId := none } := by
  rw [deleteServerGraphHandler, hs]
  simp only [henv, henvv, Option.bind_eq_bind, Option.bind]

theorem deleteLocalKeyGraphHandler_eq (g : OrgGraph) (auth : AuthContext)
    (now : Nat) (localKeyId : String) (localKey : LocalKey)
    (eobj : GraphObject) (env : EnvironmentNode)
    (hl : lookupObj g localKeyId = some (GraphObject.localKey localKey))
    (henv : lookupObj g localKey.environmentId = some eobj)
    (henvv : asEnvironment eobj = some env) :
    deleteLocalKeyGraphHandler g auth now localKeyId =
      some
        { graph := getDeleteKeyableParentProducer localKeyId now g
          transactionItems :=
            (activeEnvkeyForParent g localKey.id).map
              (fun ge => ⟨[⟨"envkey|" ++ ge.envkeyIdPart⟩]⟩)
          clearEnvkeySockets :=
            (activeEnvkeyForParent g localKey.id).map
              (fun ge => [⟨auth.orgId, ge.id⟩])
          logTargetIds :=
            [localKey.id, env.envParentId, env.environmentRoleId, "locals"]
          handlerCreatedId := none } := by
  rw [deleteLocalKeyGraphHandler, hl]
  simp only [henv, henvv, Option.bind_eq_bind, Option.bind]

/-- Whatever the `REVOKE_KEY` handler returns, its graph is a soft delete
of some ids from the input graph. -/
theorem revokeKeyGraphHandler_graph_inv (g : OrgGraph) (auth : AuthContext)
    (now : Nat) (envkeyId : String) (res : GraphHandlerResult)
    (h : revokeKeyGraphHandler g auth now envkeyId = some res) :
    ∃ ids, res.graph = deleteGraphObjects g ids now := by
  rcases hge : lookupObj g envkeyId with _ | obj
  · rw [revokeKeyGraphHandler, hge] at h
    exact absurd h (by simp)
  · cases obj
    case generatedEnvkey ge =>
      rcases hkpo : lookupObj g ge.keyableParentId with _ | kpobj
      · rw [revokeKeyGraphHandler, hge] at h
        simp only [hkpo, Option.bind_eq_bind, Option.bind] at h
        exact absurd h (by simp)
      · rcases hkv : asKeyableParent kpobj with _ | kp
        · rw [revokeKeyGraphHandler, hge] at h
          simp only [hkpo, hkv, Option.bind_eq_bind, Option.bind] at h
          exact absurd h (by simp)
        · rcases heo : lookupObj g kp.environmentId with _ | eobj
          · rw [revokeKeyGraphHandler, hge] at h
            simp only [hkpo, hkv, heo, Option.bind_eq_bind, Option.bind] at h
            exact absurd h (by simp)
          · rcases hev : asEnvironment eobj with _ | env
            · rw [revokeKeyGraphHandler, hge] at h
              simp only [hkpo, hkv, heo, hev, Option.bind_eq_bind,
                Option.bind] at h
              exact absurd h (by simp)
            · have h2 := (revokeKeyGraphHandler_eq g auth now envkeyId ge
                kpobj kp eobj env hge hkpo hkv heo hev).symm.trans h
              injection h2 with h2
              exact ⟨[ge.id], by rw [← h2]⟩
    all_goals {
      rw [revokeKeyGraphHandler, hge] at h
      exact absurd h (by simp) }

/-- Whatever the `DELETE_SERVER` handler returns, its graph is a soft
delete of some ids from the input graph. -/
theorem deleteServerGraphHandler_graph_inv (g : OrgGraph)
    (auth : AuthContext) (now : Nat) (serverId : String)
    (res : GraphHandlerResult)
    (h : deleteServerGraphHandler g auth now serverId = some res) :
    ∃ ids, res.graph = deleteGraphObjects g ids now := by
  rcases hs : lookupObj g serverId with _ | obj
  · rw [deleteServerGraphHandler, hs] at h
    exact absurd h (by simp)
  · cases obj
    case server server =>
      rcases heo : lookupObj g server.environmentId with _ | eobj
      · rw [deleteServerGraphHandler, hs] at h
        simp only [heo, Option.bind_eq_bind, Option.bind] at h
        exact absurd h (by simp)
      · rcases hev : asEnvironment eobj with _ | env
        · rw [deleteServerGraphHandler, hs] at h
          simp only [heo, hev, Option.bind_eq_bind, Option.bind] at h
          exact absurd h (by simp)
        · have h2 := (deleteServerGraphHandler_eq g auth now serverId server
            eobj env hs heo hev).symm.trans h
          injection h2 with h2
          rcases hidx : activeEnvkeyForParent g serverId with _ | ge
          · refine ⟨[serverId], ?_⟩
            rw [← h2]
            show getDeleteKeyableParentProducer serverId now g = _
            rw [getDeleteKeyableParentProducer, hidx]
          · refine ⟨[serverId, ge.id], ?_⟩
            rw [← h2]
            show getDeleteKeyableParentProducer serverId now g = _
            rw [getDeleteKeyableParentProducer, hidx]
    all_goals {
      rw [deleteServerGraphHandler, hs] at h
      exact absurd h (by simp) }

/-- Whatever the `DELETE_LOCAL_KEY` handler returns, its graph is a soft
delete of some ids from the input graph. -/
theorem deleteLocalKeyGraphHandler_graph_inv (g : OrgGraph)
    (auth : AuthContext) (now : Nat) (localKeyId : String)
    (res : GraphHandlerResult)
    (h : deleteLocalKeyGraphHandler g auth now localKeyId = some res) :
    ∃ ids, res.graph = deleteGraphObjects g ids now := by
  rcases hl : lookupObj g localKeyId with _ | obj
  · rw [deleteLocalKeyGraphHandler, hl] at h
    exact absurd h (by simp)
  · cases obj
    case localKey localKey =>
      rcases heo : lookupObj g localKey.environmentId with _ | eobj
      · rw [deleteLocalKeyGraphHandler, hl] at h
        simp only [heo, Option.bind_eq_bind, Option.bind] at h
        exact absurd h (by simp)
      · rcases hev : asEnvironment eobj with _ | env
        · rw [deleteLocalKeyGraphHandler, hl] at h
          simp only [heo, hev, Option.bind_eq_bind, Option.bind] at h
          exact absurd h (by simp)
        · have h2 := (deleteLocalKeyGraphHandler_eq g auth now localKeyId
            localKey eobj env hl heo hev).symm.trans h
          injection h2 with h2
          rcases hidx : activeEnvkeyForParent g localKeyId with _ | ge
          · refine ⟨[localKeyId], ?_⟩
            rw [← h2]
            show getDeleteKeyableParentProducer localKeyId now g = _
            rw [getDeleteKeyableParentProducer, hidx]
          · refine ⟨[localKeyId, ge.id], ?_⟩
            rw [← h2]
            show getDeleteKeyableParentProducer localKeyId now g = _
            rw [getDeleteKeyableParentProducer, hidx]
    all_goals {
      rw [deleteLocalKeyGraphHandler, hl] at h
      exact absurd h (by simp) }

/-- Every pipeline step preserves graph wellformedness — in particular the
single-active-credential invariant (§3, §8). -/
theorem applyLifecycleAction_preserves_WF (g : OrgGraph)
    (a : LifecycleAction) (hWF : GraphWF g) :
    GraphWF (applyLifecycleAction g a) := by
  cases a
  case generate auth now payload canGen =>
    rw [applyLifecycleAction]
    by_cases hauth : generateKeyGraphAuthorizer g auth.license
        payload.keyableParentId payload.keyableParentType canGen = true
    · rw [if_pos hauth]
      rcases hres : generateKeyGraphHandler g auth now payload (freshId g)
        with _ | res
      · exact hWF
      · exact generateKeyGraphHandler_preserves_WF g auth now payload
          (freshId g) res hWF (lookupObj_freshId g) hres
    · rw [if_neg hauth]
      exact hWF
  case revoke auth now envkeyId canRevoke =>
    rw [applyLifecycleAction]
    by_cases hc : canRevoke = true
    · rw [if_pos hc]
      rcases hres : revokeKeyGraphHandler g auth now envkeyId with _ | res
      · exact hWF
      · obtain ⟨ids, hg⟩ :=
          revokeKeyGraphHandler_graph_inv g auth now envkeyId res hres
        show GraphWF res.graph
        rw [hg]
        exact GraphWF_deleteGraphObjects g ids now hWF
    · rw [if_neg hc]
      exact hWF
  case deleteServer auth now serverId canDelete =>
    rw [applyLifecycleAction]
    by_cases hc : canDelete = true
    · rw [if_pos hc]
      rcases hres : deleteServerGraphHandler g auth now serverId with _ | res
      · exact hWF
      · obtain ⟨ids, hg⟩ :=
          deleteServerGraphHandler_graph_inv g auth now serverId res hres
        show GraphWF res.graph
        rw [hg]
        exact GraphWF_deleteGraphObjects g ids now hWF
    · rw [if_neg hc]
      exact hWF
  case deleteLocalKey auth now localKeyId canDelete =>
    rw [applyLifecycleAction]
    by_cases hc : canDelete = true
    · rw [if_pos hc]
      rcases hres : deleteLocalKeyGraphHandler g auth now localKeyId with _ | res
      · exact hWF
      · obtain ⟨ids, hg⟩ :=
          deleteLocalKeyGraphHandler_graph_inv g auth now localKeyId res hres
        show GraphWF res.graph
        rw [hg]
        exact GraphWF_deleteGraphObjects g ids now hWF
    · rw [if_neg hc]
      exact hWF

theorem runLifecycleActions_preserves_WF (g : OrgGraph)
    (actions : List LifecycleAction) (hWF : GraphWF g) :
    GraphWF (runLifecycleActions g actions) := by
  induction actions generalizing g with
  | nil => exact hWF
  | cons a actions ih =>
    rw [runLifecycleActions, List.foldl_cons]
    exact ih _ (applyLifecycleAction_preserves_WF g a hWF)

/-- An active non-Server-bound envkey node forces the server-bound count
strictly below the total. -/
theorem serverCount_succ_le_total (g : OrgGraph) (k : String)
    (ex : GeneratedEnvkey)
    (hmem : (k, GraphObject.generatedEnvkey ex) ∈ g)
    (hact : ex.isActive = true)
    (hns : ¬(ex.keyableParentType = KeyableParentType.server)) :
    serverEnvkeyNodeCount g + 1 ≤ totalActiveEnvkeyCount g := by
  have hsplit : g.countP (fun e =>
        match e.2 with
        | GraphObject.generatedEnvkey ge => ge.isActive && true
        | _ => false) =
      g.countP (fun e =>
        (match e.2 with
          | GraphObject.generatedEnvkey ge => ge.isActive && true
          | _ => false) &&
          (match e.2 with
            | GraphObject.generatedEnvkey ge =>
              ge.keyableParentType == KeyableParentType.server
            | _ => false)) +
      g.countP (fun e =>
        (match e.2 with
          | GraphObject.generatedEnvkey ge => ge.isActive && true
          | _ => false) &&
          !(match e.2 with
            | GraphObject.generatedEnvkey ge =>
              ge.keyableParentType == KeyableParentType.server
            | _ => false)) :=
    countP_split g _ _
  have hserver : g.countP (fun e =>
      (match e.2 with
        | GraphObject.generatedEnvkey ge => ge.isActive && true
        | _ => false) &&
        (match e.2 with
          | GraphObject.generatedEnvkey ge =>
            ge.keyableParentType == KeyableParentType.server
          | _ => false)) = serverEnvkeyNodeCount g := by
    rw [serverEnvkeyNodeCount, countActiveEnvkeysP]
    apply List.countP_congr
    intro e _
    cases e.2 <;> simp
  have hpos : 0 < g.countP (fun e =>
      (match e.2 with
        | GraphObject.generatedEnvkey ge => ge.isActive && true
        | _ => false) &&
        !(match e.2 with
          | GraphObject.generatedEnvkey ge =>
            ge.keyableParentType == KeyableParentType.server
          | _ => false)) := by
    rw [List.countP_pos_iff]
    refine ⟨(k, GraphObject.generatedEnvkey ex), hmem, ?_⟩
    simp [hact, hns]
  have htot : g.countP (fun e =>
      match e.2 with
      | GraphObject.generatedEnvkey ge => ge.isActive && true
      | _ => false) = totalActiveEnvkeyCount g := rfl
  omega

/-- The `GENERATE_KEY` authorizer for Server-type parents, as a numeric
condition: permitted iff the `authz` oracle holds and either the license is
unlimited or the index count net of the replaced credential stays below the
limit. -/
theorem generateKeyGraphAuthorizer_server_iff (g : OrgGraph)
    (license : License) (keyableParentId : String) (canGen : Bool) :
    generateKeyGraphAuthorizer g license keyableParentId
        KeyableParentType.server canGen = true ↔
      (canGen = true ∧
        (license.maxServerEnvkeys = -1 ∨
          (numActiveEnvkeys g : Int) -
            (if (activeEnvkeyForParent g keyableParentId).isSome then 1 else 0) <
            license.maxServerEnvkeys)) := by
  rw [generateKeyGraphAuthorizer]
  by_cases h1 : license.maxServerEnvkeys = -1
  · simp [h1]
  · by_cases h2 : (numActiveEnvkeys g : Int) -
        (if (activeEnvkeyForParent g keyableParentId).isSome then 1 else 0) ≥
        license.maxServerEnvkeys
    · simp [h1, h2, not_lt.mpr h2]
    · simp [h1, h2, lt_of_not_ge h2]

/-- A permitted `GenerateKey` step keeps the number of active server-bound
credentials within a non-negative license limit. -/
theorem applyGenerate_quota (g : OrgGraph) (auth : AuthContext) (now : Nat)
    (payload : GenerateKeyPayload) (canGen : Bool) (N : Int)
    (hWF : GraphWF g) (hN : 0 ≤ N) (hlic : auth.license = ⟨N⟩)
    (hbound : (serverEnvkeyNodeCount g : Int) ≤ N) :
    (serverEnvkeyNodeCount (applyLifecycleAction g
      (LifecycleAction.generate auth now payload canGen)) : Int) ≤ N := by
  obtain ⟨hWFk, hWFn, hWFa⟩ := hWF
  rw [applyLifecycleAction]
  by_cases hauth : generateKeyGraphAuthorizer g auth.license
      payload.keyableParentId payload.keyableParentType canGen = true
  case neg =>
    rw [if_neg hauth]
    exact hbound
  case pos =>
    rw [if_pos hauth]
    rcases hres : generateKeyGraphHandler g auth now payload (freshId g)
      with _ | res
    · exact hbound
    · show ((serverEnvkeyNodeCount res.graph : Int)) ≤ N
      obtain ⟨pobj, kp, org0, eobj, env, hpo, hkv, horg, heo, hev⟩ :=
        generateKeyGraphHandler_inv g auth now payload (freshId g) res hres
      have hcount := generateKeyGraphHandler_count g auth now payload
        (freshId g) res
        (fun ge => ge.keyableParentType == KeyableParentType.server) pobj kp
        org0 eobj env hWFk hWFn (lookupObj_freshId g) hpo hkv horg heo hev hres
      simp only [mkGeneratedEnvkey_keyableParentType] at hcount
      have hle := serverCount_le_totalActive g
      by_cases hserver : payload.keyableParentType = KeyableParentType.server
      · have hnum := numActiveEnvkeys_eq_totalActive g hWFa
        rw [hserver] at hauth
        have hiff := (generateKeyGraphAuthorizer_server_iff g auth.license
          payload.keyableParentId canGen).mp hauth
        have hNne : ¬(auth.license.maxServerEnvkeys = -1) := by
          rw [hlic]
          intro hx
          simp at hx
          omega
        have hlt : (numActiveEnvkeys g : Int) -
            (if (activeEnvkeyForParent g payload.keyableParentId).isSome
              then 1 else 0) < N := by
          rcases hiff.2 with hx | hx
          · exact absurd hx hNne
          · rw [hlic] at hx
            exact hx
        rw [hnum] at hlt
        rcases hidx : activeEnvkeyForParent g payload.keyableParentId
          with _ | ex
        · rw [hidx] at hcount hlt
          simp only [Option.isSome_none, Bool.false_eq_true, if_false,
            Int.sub_zero] at hlt
          simp only [hserver] at hcount
          simp only [beq_self_eq_true, if_pos] at hcount
          have hc2 : serverEnvkeyNodeCount res.graph =
              serverEnvkeyNodeCount g + 1 := by
            simpa using hcount
          have hle2 : serverEnvkeyNodeCount g ≤ totalActiveEnvkeyCount g := hle
          omega
        · rw [hidx] at hcount hlt
          simp only [Option.isSome_some, if_true, if_pos] at hlt
          simp only [hserver] at hcount
          obtain ⟨⟨k, hkmem⟩, hact, hparent⟩ :=
            activeEnvkeyForParent_sound g payload.keyableParentId ex hidx
          have hle2 : serverEnvkeyNodeCount g ≤ totalActiveEnvkeyCount g := hle
          by_cases hexs : ex.keyableParentType = KeyableParentType.server
          · have hc2 : serverEnvkeyNodeCount res.graph + 1 =
                serverEnvkeyNodeCount g + 1 := by
              simpa [hexs] using hcount
            omega
          · have hexb : (ex.keyableParentType == KeyableParentType.server) =
                false := by
              simp [hexs]
            have hc2 : serverEnvkeyNodeCount res.graph =
                serverEnvkeyNodeCount g + 1 := by
              simpa [hexb] using hcount
            have hstrict := serverCount_succ_le_total g k ex hkmem hact hexs
            omega
      · have hb : (payload.keyableParentType == KeyableParentType.server) =
            false := by
          simp [hserver]
        rcases hidx : activeEnvkeyForParent g payload.keyableParentId
          with _ | ex
        · rw [hidx] at hcount
          have hc2 : serverEnvkeyNodeCount res.graph =
              serverEnvkeyNodeCount g := by
            simpa [hb] using hcount
          omega
        · rw [hidx] at hcount
          have hc2 : serverEnvkeyNodeCount res.graph +
              (if (ex.keyableParentType == KeyableParentType.server) = true
                then 1 else 0) = serverEnvkeyNodeCount g := by
            simpa [hb] using hcount
          by_cases hexs : (ex.keyableParentType == KeyableParentType.server) = true
          · simp [hexs] at hc2
            omega
          · simp [hexs] at hc2
            omega

theorem mergeScopeDim_comm (a b : ScopeDim) :
    mergeScopeDim a b = mergeScopeDim b a := by
  cases a <;> cases b <;> simp [mergeScopeDim, Finset.union_comm]

theorem mergeScopeDim_assoc (a b c : ScopeDim) :
    mergeScopeDim (mergeScopeDim a b) c =
      mergeScopeDim a (mergeScopeDim b c) := by
  cases a <;> cases b <;> cases c <;>
    simp [mergeScopeDim, Finset.union_assoc]

theorem mergeScopeDim_all_left (b : ScopeDim) :
    mergeScopeDim ScopeDim.all b = ScopeDim.all := by
  cases b <;> simp [mergeScopeDim]

theorem lookupObj_filter_ne_self {α : Type} (g : List (String × α))
    (id : String) :
    lookupObj (g.filter (fun e => e.1 != id)) id = none := by
  induction g with
  | nil => simp [lookupObj]
  | cons hd tl ih =>
    obtain ⟨k0, v0⟩ := hd
    by_cases hk : k0 = id
    · simp [List.filter, hk, ih]
    · have hne : (k0 != id) = true := by
        simp [bne_iff_ne, hk]
      simp [List.filter, lookupObj, hne, hk, ih]

/-! ## Concrete sample graph used by witnesses -/

def orgW : Org := ⟨"org1", 1, 0, 0⟩

def envW : EnvironmentNode := ⟨"env1", "app1", "role1", false, "", ""⟩

def serverW : Server := ⟨"s1", "app1", "env1", "S1", 0, 0, none⟩

def geW : GeneratedEnvkey :=
  { id := "k1"
    appId := "app1"
    environmentId := "env1"
    keyableParentId := "s1"
    keyableParentType := KeyableParentType.server
    envkeyIdPart := "abc123xyz"
    envkeyIdPartHash := sha256 "abc123xyz"
    envkeyShort := "abc123"
    pubkey := "pk1"
    pubkeyId := getPubkeyHash "pk1"
    encryptedPrivkey := "enc1"
    signedTrustedRoot := "root1"
    trustedRootUpdatedAt := 0
    creatorId := "u1"
    creatorDeviceId := some "d1"
    signedById := "d1"
    userId := none
    deviceId := none
    pubkeyUpdatedAt := 0
    blobsUpdatedAt := 0
    createdAt := 0
    updatedAt := 0
    deletedAt := none }

def gW : OrgGraph :=
  [("org1", GraphObject.org orgW),
    ("env1", GraphObject.environment envW),
    ("s1", GraphObject.server serverW),
    ("k1", GraphObject.generatedEnvkey geW)]

def authW : AuthContext := ⟨"org1", "u1", true, "d1", ⟨1⟩⟩

theorem gW_keysMatchIds : keysMatchIds gW := by
  intro e he
  simp only [gW, List.mem_cons, List.mem_singleton] at he
  rcases he with h | h | h | h | h
  · subst h; rfl
  · subst h; rfl
  · subst h; rfl
  · subst h; rfl
  · cases h

theorem gW_nodupKeys : (gW.map Prod.fst).Nodup := by decide

def localKeyW : LocalKey := ⟨"lk1", "app1", "env1", "LK1", "u1", "d1", 0, 0, none⟩

def geLW : GeneratedEnvkey :=
  { geW with
    id := "k2"
    keyableParentId := "lk1"
    keyableParentType := KeyableParentType.localKey
    userId := some "u1"
    deviceId := some "d1"
    envkeyIdPart := "lkpart99"
    envkeyIdPartHash := sha256 "lkpart99"
    envkeyShort := "lkpart" }

def gLW : OrgGraph :=
  [("org1", GraphObject.org orgW),
    ("env1", GraphObject.environment envW),
    ("lk1", GraphObject.localKey localKeyW),
    ("k2", GraphObject.generatedEnvkey geLW)]

theorem gLW_keysMatchIds : keysMatchIds gLW := by
  intro e he
  simp only [gLW, List.mem_cons, List.mem_singleton] at he
  rcases he with h | h | h | h | h
  · subst h; rfl
  · subst h; rfl
  · subst h; rfl
  · subst h; rfl
  · cases h

theorem gLW_nodupKeys : (gLW.map Prod.fst).Nodup := by decide

def serverW2 : Server := ⟨"s2", "app1", "env1", "S2", 0, 0, none⟩

/-- An org with a limited license, one active local-key-bound envkey, and a
server holding no envkey yet. -/
def gC1 : OrgGraph :=
  [("org1", GraphObject.org orgW),
    ("env1", GraphObject.environment envW),
    ("lk1", GraphObject.localKey localKeyW),
    ("k2", GraphObject.generatedEnvkey geLW),
    ("s2", GraphObject.server serverW2)]

/-! ## Claim theorems -/

/-- C8: `mergeAccessScopes` is commutative and associative, unions each of
the three dimensions, and `"all"` on a dimension of the left scope absorbs
the other scope's dimension. -/
theorem mergeAccessScopes_comm_assoc_absorbing :
    (∀ a b : AccessScope, mergeAccessScopes a b = mergeAccessScopes b a) ∧
    (∀ a b c : AccessScope,
      mergeAccessScopes (mergeAccessScopes a b) c =
        mergeAccessScopes a (mergeAccessScopes b c)) ∧
    (∀ a b : AccessScope, ∀ sa sb : Finset String,
      (a.envParentIds = ScopeDim.ids sa → b.envParentIds = ScopeDim.ids sb →
        (mergeAccessScopes a b).envParentIds = ScopeDim.ids (sa ∪ sb)) ∧
      (a.userIds = ScopeDim.ids sa → b.userIds = ScopeDim.ids sb →
        (mergeAccessScopes a b).userIds = ScopeDim.ids (sa ∪ sb)) ∧
      (a.keyableParentIds = ScopeDim.ids sa → b.keyableParentIds = ScopeDim.ids sb →
        (mergeAccessScopes a b).keyableParentIds = ScopeDim.ids (sa ∪ sb))) ∧
    (∀ a b : AccessScope,
      (a.envParentIds = ScopeDim.all →
        (mergeAccessScopes a b).envParentIds = ScopeDim.all) ∧
      (a.userIds = ScopeDim.all →
        (mergeAccessScopes a b).userIds = ScopeDim.all) ∧
      (a.keyableParentIds = ScopeDim.all →
        (mergeAccessScopes a b).keyableParentIds = ScopeDim.all)) := by
  refine ⟨?_, ?_, ?_, ?_⟩
  · intro a b
    simp [mergeAccessScopes, mergeScopeDim_comm a.envParentIds,
      mergeScopeDim_comm a.userIds, mergeScopeDim_comm a.keyableParentIds]
  · intro a b c
    simp [mergeAccessScopes, mergeScopeDim_assoc]
  · intro a b sa sb
    refine ⟨?_, ?_, ?_⟩ <;>
      { intro ha hb
        simp [mergeAccessScopes, ha, hb, mergeScopeDim] }
  · intro a b
    refine ⟨?_, ?_, ?_⟩ <;>
      { intro ha
        simp [mergeAccessScopes, ha, mergeScopeDim_all_left] }

/-- C8 witness: the theorem's absorption and union clauses evaluated at
concrete scopes. -/
theorem mergeAccessScopes_comm_assoc_absorbing_witness :
    (mergeAccessScopes ⟨ScopeDim.all, ScopeDim.ids {"u"}, ScopeDim.ids ∅⟩
        ⟨ScopeDim.ids {"e"}, ScopeDim.all, ScopeDim.ids {"k"}⟩).envParentIds =
      ScopeDim.all ∧
    (mergeAccessScopes ⟨ScopeDim.ids {"a"}, ScopeDim.all, ScopeDim.all⟩
        ⟨ScopeDim.ids {"b"}, ScopeDim.all, ScopeDim.all⟩).envParentIds =
      ScopeDim.ids ({"a"} ∪ {"b"}) := by
  constructor
  · exact (mergeAccessScopes_comm_assoc_absorbing.2.2.2
      ⟨ScopeDim.all, ScopeDim.ids {"u"}, ScopeDim.ids ∅⟩
      ⟨ScopeDim.ids {"e"}, ScopeDim.all, ScopeDim.ids {"k"}⟩).1 rfl
  · exact ((mergeAccessScopes_comm_assoc_absorbing.2.2.1
      ⟨ScopeDim.ids {"a"}, ScopeDim.all, ScopeDim.all⟩
      ⟨ScopeDim.ids {"b"}, ScopeDim.all, ScopeDim.all⟩ {"a"} {"b"}).1) rfl rfl

/-- C9: for a `DisconnectBlock` action whose payload id denotes an
`appBlock` connection node, the graph proposer removes that node, and the
computed encrypted-keys scope is exactly
`{ envParentIds: {appId, blockId}, userIds: "all", keyableParentIds: "all" }`. -/
theorem disconnectBlock_removes_connection_and_scopes (graph : OrgGraph)
    (id : String) (connection : AppBlock)
    (h : lookupObj graph id = some (GraphObject.appBlock connection)) :
    lookupObj (deleteProposer graph id) id = none ∧
    disconnectBlockEncryptedKeysScopeFn graph id =
      some
        { envParentIds := ScopeDim.ids {connection.appId, connection.blockId}
          userIds := ScopeDim.all
          keyableParentIds := ScopeDim.all } := by
  constructor
  · exact lookupObj_filter_ne_self graph id
  · simp [disconnectBlockEncryptedKeysScopeFn, h]

/-- C9 witness: a one-connection graph, evaluated concretely. -/
theorem disconnectBlock_removes_connection_and_scopes_witness :
    lookupObj (deleteProposer
      [("c1", GraphObject.appBlock ⟨"c1", "app1", "block1", 0, 0⟩)] "c1") "c1" =
      none ∧
    disconnectBlockEncryptedKeysScopeFn
      [("c1", GraphObject.appBlock ⟨"c1", "app1", "block1", 0, 0⟩)] "c1" =
      some
        { envParentIds := ScopeDim.ids {"app1", "block1"}
          userIds := ScopeDim.all
          keyableParentIds := ScopeDim.all } :=
  disconnectBlock_removes_connection_and_scopes
    [("c1", GraphObject.appBlock ⟨"c1", "app1", "block1", 0, 0⟩)] "c1"
    ⟨"c1", "app1", "block1", 0, 0⟩ (by simp [lookupObj])

/-- C5 counterexample: while the device is locked, an `OPEN_URL` action —
which is neither `UnlockDevice` nor `LOAD_RECOVERY_KEY` — is answered with
the open-url 301 shortcut (placed before the lock check in the source),
not with the locked error the claim requires for every other action
type. -/
theorem actionGate_locked_openUrl_counterexample :
    actionRouteGate true true false false true false
      ClientActionType.openUrl = ActionGateOutcome.openUrlShortcut301 ∧
    ActionGateOutcome.openUrlShortcut301 ≠ ActionGateOutcome.lockedError403 := by
  constructor
  · rfl
  · intro h
    exact absurd h (by decide)

/-- C5 (amended): while locked, every action type other than
`UnlockDevice`, `LOAD_RECOVERY_KEY` and the `OPEN_URL` shortcut (which is
short-circuited before the lock check and never touches client state) is
rejected with the explicit locked 403 — an outcome that returns before the
dispatch pipeline, leaving the client state unmodified. -/
theorem actionGate_locked_rejects_other_actions (t : ClientActionType)
    (unlockOk initOk storeDefined requiresPassphrase : Bool)
    (h1 : t ≠ ClientActionType.unlockDevice)
    (h2 : t ≠ ClientActionType.loadRecoveryKey)
    (h3 : t ≠ ClientActionType.openUrl) :
    actionRouteGate true true unlockOk initOk storeDefined
      requiresPassphrase t = ActionGateOutcome.lockedError403 ∧
    ActionGateOutcome.lockedError403 ≠ ActionGateOutcome.dispatched := by
  refine ⟨?_, by decide⟩
  cases t with
  | openUrl => exact absurd rfl h3
  | unlockDevice => exact absurd rfl h1
  | loadRecoveryKey => exact absurd rfl h2
  | lockDevice => simp [actionRouteGate]
  | other name => simp [actionRouteGate]

/-- C5 witness: a generic (`other`) action while locked gets the locked
403. -/
theorem actionGate_locked_rejects_other_actions_witness :
    actionRouteGate true true false false true false
      (ClientActionType.other "CREATE_BLOCK") =
      ActionGateOutcome.lockedError403 ∧
    ActionGateOutcome.lockedError403 ≠ ActionGateOutcome.dispatched :=
  actionGate_locked_rejects_other_actions (ClientActionType.other "CREATE_BLOCK")
    false false true false (by simp) (by simp) (by simp)

/-- C6 counterexample: a `/stop` request with an invalid caller identity
token is not answered with an unauthorized error — it triggers the
shutdown handler, because the `/stop` route is registered before
`authMiddleware`. -/
theorem routeRequest_stop_unauthenticated_counterexample :
    routeRequest CoreRoute.stop false = RouteOutcome.stopTriggered ∧
    RouteOutcome.stopTriggered ≠ RouteOutcome.unauthorized := by
  constructor
  · rfl
  · intro h
    exact absurd h (by decide)

/-- C6 (amended): every request other than `/alive` *and `/stop`* that
fails the caller-identity check is answered with the unauthorized error and
reaches neither the `/state` nor `/action` handlers. -/
theorem routeRequest_unauthenticated_rejected (route : CoreRoute)
    (h1 : route ≠ CoreRoute.alive) (h2 : route ≠ CoreRoute.stop) :
    routeRequest route false = RouteOutcome.unauthorized := by
  cases route with
  | alive => exact absurd rfl h1
  | stop => exact absurd rfl h2
  | state => simp [routeRequest]
  | action => simp [routeRequest]
  | other path => simp [routeRequest]

/-- C6 witness: an unauthenticated `/action` request is rejected. -/
theorem routeRequest_unauthenticated_rejected_witness :
    routeRequest CoreRoute.action false = RouteOutcome.unauthorized :=
  routeRequest_unauthenticated_rejected CoreRoute.action (by simp) (by simp)

theorem applyPatchAux_skip_lower (vs : List Nat) :
    ∀ (i2 i b : Nat) (p : StatePatch), i < i2 →
      applyPatchAux i2 vs ((i, b) :: p) = applyPatchAux i2 vs p := by
  induction vs with
  | nil => intro i2 i b p h; rfl
  | cons v vs ih =>
    intro i2 i b p h
    have hne : ¬(i = i2) := Nat.ne_of_lt h
    simp only [applyPatchAux, lookupIdx, if_neg hne]
    rw [ih (i2 + 1) i b p (Nat.lt_succ_of_lt h)]

theorem lookupIdx_createPatchAux_lower (as : List Nat) :
    ∀ (bs : List Nat) (i j : Nat), j < i →
      lookupIdx (createPatchAux i as bs) j = none := by
  induction as with
  | nil => intro bs i j h; rfl
  | cons a as ih =>
    intro bs i j h
    cases bs with
    | nil => rfl
    | cons b bs =>
      by_cases hab : a = b
      · simp only [createPatchAux, if_pos hab, List.nil_append]
        exact ih bs (i + 1) j (Nat.lt_succ_of_lt h)
      · simp only [createPatchAux, if_neg hab, List.cons_append,
          List.nil_append, lookupIdx]
        rw [if_neg (Nat.ne_of_gt h)]
        exact ih bs (i + 1) j (Nat.lt_succ_of_lt h)

theorem applyPatchAux_createPatchAux (pre : List Nat) :
    ∀ (post : List Nat) (i : Nat), pre.length = post.length →
      applyPatchAux i pre (createPatchAux i pre post) = post := by
  induction pre with
  | nil =>
    intro post i h
    cases post with
    | nil => rfl
    | cons b bs => exact absurd h (by simp)
  | cons a as ih =>
    intro post i h
    cases post with
    | nil => exact absurd h (by simp)
    | cons b bs =>
      have hlen : as.length = bs.length := by
        simpa using h
      by_cases hab : a = b
      · simp only [createPatchAux, if_pos hab, List.nil_append,
          applyPatchAux]
        rw [lookupIdx_createPatchAux_lower as bs (i + 1) i (Nat.lt_succ_self i)]
        rw [ih bs (i + 1) hlen, hab]
      · simp only [createPatchAux, if_neg hab, List.cons_append,
          List.nil_append, applyPatchAux, lookupIdx, if_pos rfl]
        rw [applyPatchAux_skip_lower as (i + 1) i b
          (createPatchAux (i + 1) as bs) (Nat.lt_succ_self i)]
        rw [ih bs (i + 1) hlen]
        simp

/-- rfc6902 round trip: applying `createPatch pre post` to `pre` yields
`post`, for serialized states of the same shape. -/
theorem createPatch_roundtrip (pre post : ClientState)
    (h : pre.length = post.length) :
    applyPatch pre (createPatch pre post) = post :=
  applyPatchAux_createPatchAux pre post 0 h

/-- C7 counterexample: for an `asyncClientAction` (socket updates not
skipped), the state changes synchronously during dispatch
(`initial = [0]`, `afterDispatch = [1]`) and the final state equals the
after-dispatch state (`[1]`). The response's `diffs` is then the empty
patch `createPatch(afterDispatch, final)`, and applying it to the
pre-action state reproduces `[0]`, not the post-action state `[1]`. -/
theorem actionResponseDiffs_pre_state_counterexample :
    applyPatch [0]
      (actionResponseDiffs [0] [1] [1]
        (shouldSendSocketUpdate ⟨"asyncClientAction", false⟩)) = [0] ∧
    ([0] : ClientState) ≠ [1] := by
  constructor
  · rfl
  · intro h
    exact absurd h (by decide)

/-- C7 (amended): the response's `diffs` is a forward patch onto the
post-action state whose base is the state captured right after dispatch
began when a local socket update was sent (the socket update already
carried `createPatch(initial, afterDispatch)`), and the pre-action state
otherwise; applying `diffs` to that base — or, in the socket case,
composing the socket patch and then `diffs` starting from the pre-action
state — reproduces the post-action serialized state exactly. -/
theorem actionResponseDiffs_roundtrip
    (initialState afterDispatchState finalState : ClientState)
    (actionParams : ActionParams)
    (h1 : initialState.length = afterDispatchState.length)
    (h2 : afterDispatchState.length = finalState.length) :
    applyPatch
        (if shouldSendSocketUpdate actionParams then afterDispatchState
        else initialState)
        (actionResponseDiffs initialState afterDispatchState finalState
          (shouldSendSocketUpdate actionParams)) = finalState ∧
    (shouldSendSocketUpdate actionParams = true →
      applyPatch (applyPatch initialState
          (createPatch initialState afterDispatchState))
        (actionResponseDiffs initialState afterDispatchState finalState
          true) = finalState) := by
  constructor
  · by_cases hs : shouldSendSocketUpdate actionParams = true
    · simp only [hs, if_pos, actionResponseDiffs]
      exact createPatch_roundtrip afterDispatchState finalState h2
    · have hs2 : shouldSendSocketUpdate actionParams = false := by
        simpa using hs
      simp only [hs2, Bool.false_eq_true, if_neg, actionResponseDiffs]
      exact createPatch_roundtrip initialState finalState (h1.trans h2)
  · intro hs
    rw [createPatch_roundtrip initialState afterDispatchState h1]
    simp only [actionResponseDiffs, if_pos]
    exact createPatch_roundtrip afterDispatchState finalState h2

/-- C7 witness: the round trip evaluated on a concrete dispatch where the
state moved both during and after the synchronous phase. -/
theorem actionResponseDiffs_roundtrip_witness :
    applyPatch
        (if shouldSendSocketUpdate ⟨"asyncClientAction", false⟩ then
          ([5, 1] : ClientState)
        else [5, 0])
        (actionResponseDiffs [5, 0] [5, 1] [7, 1]
          (shouldSendSocketUpdate ⟨"asyncClientAction", false⟩)) = [7, 1] :=
  (actionResponseDiffs_roundtrip [5, 0] [5, 1] [7, 1]
    ⟨"asyncClientAction", false⟩ rfl rfl).1

/-- C3: for a `RevokeKey` action on an existing active GeneratedEnvkey
(whose keyable parent and environment are in the graph), the handler
soft-deletes the envkey's graph node, emits the blob hard-delete scope
with pkey `"envkey|" + envkeyIdPart`, decrements the org's server-envkey
counter when the credential is server-bound, and emits exactly one
targeted envkey-socket invalidation for the envkey's id. -/
theorem revokeKey_deletes_blob_counter_socket (g : OrgGraph)
    (auth : AuthContext) (now : Nat) (envkeyId : String)
    (ge : GeneratedEnvkey) (kpobj eobj : GraphObject)
    (kp : KeyableParentView) (env : EnvironmentNode) (org0 : Org)
    (res : GraphHandlerResult)
    (hWFk : keysMatchIds g) (hWFn : (g.map Prod.fst).Nodup)
    (hge : lookupObj g envkeyId = some (GraphObject.generatedEnvkey ge))
    (hactive : ge.isActive = true)
    (hkp : lookupObj g ge.keyableParentId = some kpobj)
    (hkpv : asKeyableParent kpobj = some kp)
    (henv : lookupObj g kp.environmentId = some eobj)
    (henvv : asEnvironment eobj = some env)
    (horg : lookupObj g auth.orgId = some (GraphObject.org org0))
    (hres : revokeKeyGraphHandler g auth now envkeyId = some res) :
    lookupObj res.graph envkeyId =
      some (GraphObject.generatedEnvkey
        { ge with deletedAt := some now, updatedAt := now }) ∧
    res.transactionItems = some ⟨[⟨"envkey|" ++ ge.envkeyIdPart⟩]⟩ ∧
    (ge.keyableParentType = KeyableParentType.server →
      lookupObj res.graph auth.orgId =
        some (GraphObject.org
          { org0 with
            serverEnvkeyCount := org0.serverEnvkeyCount - 1
            updatedAt := now })) ∧
    res.clearEnvkeySockets = some [⟨auth.orgId, ge.id⟩] := by
  rw [revokeKeyGraphHandler_eq g auth now envkeyId ge kpobj kp eobj env hge
    hkp hkpv henv henvv] at hres
  injection hres with hres
  subst hres
  have hid : ge.id = envkeyId := hWFk _ (mem_of_lookupObj g envkeyId _ hge)
  have hgeid : lookupObj g ge.id = some (GraphObject.generatedEnvkey ge) := by
    rw [hid]
    exact hge
  have hne : ¬(auth.orgId = envkeyId) := by
    intro hx
    rw [hx, hge] at horg
    exact absurd horg (by simp)
  refine ⟨?_, rfl, ?_, rfl⟩
  · show lookupObj (deleteGraphObjects g [ge.id] now) envkeyId = _
    rw [lookupObj_deleteGraphObjects, hge]
    simp [deleteAdjustEntry, markDeleted, hid]
  · intro hserver
    show lookupObj (deleteGraphObjects g [ge.id] now) auth.orgId = _
    rw [lookupObj_deleteGraphObjects, horg]
    have hne2 : ¬(auth.orgId = ge.id) := by
      rw [hid]
      exact hne
    have hcnt :
        g.countP (fun e => decide (e.1 = ge.id) && isActiveServerEnvkeyObj e.2)
          = 1 := by
      rw [List.countP_congr (fun e _ => by
        show (decide (e.1 = ge.id) && isActiveServerEnvkeyObj e.2) = true ↔
          (isActiveServerEnvkeyObj e.2 && decide (e.1 = ge.id)) = true
        constructor <;> intro hx <;> simpa [Bool.and_comm] using hx)]
      rw [countP_single_key g ge.id (GraphObject.generatedEnvkey ge)
        (fun e => isActiveServerEnvkeyObj e.2) hWFn hgeid]
      simp [isActiveServerEnvkeyObj, hactive, hserver]
    simp [deleteAdjustEntry, hne2, hcnt]

/-- C3 witness: revoking the sample server envkey decrements the org's
counter from 1 to 0 in the resulting graph. -/
theorem revokeKey_deletes_blob_counter_socket_witness :
    lookupObj (deleteGraphObjects gW [geW.id] 5) authW.orgId =
      some (GraphObject.org
        { orgW with
          serverEnvkeyCount := orgW.serverEnvkeyCount - 1
          updatedAt := 5 }) :=
  (revokeKey_deletes_blob_counter_socket gW authW 5 "k1" geW
    (GraphObject.server serverW) (GraphObject.environment envW)
    ⟨"s1", "env1", KeyableParentType.server, none, none⟩ envW orgW
    { graph := deleteGraphObjects gW [geW.id] 5
      transactionItems := some ⟨[⟨"envkey|" ++ geW.envkeyIdPart⟩]⟩
      clearEnvkeySockets := some [⟨"org1", geW.id⟩]
      logTargetIds := ["k1", "s1", "app1", "role1"]
      handlerCreatedId := none }
    gW_keysMatchIds gW_nodupKeys
    rfl rfl rfl rfl rfl rfl rfl rfl).2.2.1 rfl

/-- C4: deleting a Server or LocalKey cascades — when the keyable parent
holds an active GeneratedEnvkey, the handler's result removes (soft-deletes)
that envkey's graph node and emits, in the same transaction, its blob
hard-delete scope and one targeted envkey-socket invalidation; when there
is no active envkey, no transaction items and no socket invalidations are
emitted. -/
theorem deleteKeyableParent_cascades :
    (∀ (g : OrgGraph) (auth : AuthContext) (now : Nat) (serverId : String)
      (server : Server) (eobj : GraphObject) (env : EnvironmentNode)
      (res : GraphHandlerResult),
      keysMatchIds g → (g.map Prod.fst).Nodup →
      lookupObj g serverId = some (GraphObject.server server) →
      lookupObj g server.environmentId = some eobj →
      asEnvironment eobj = some env →
      deleteServerGraphHandler g auth now serverId = some res →
      (∀ ge, activeEnvkeyForParent g serverId = some ge →
        res.transactionItems = some ⟨[⟨"envkey|" ++ ge.envkeyIdPart⟩]⟩ ∧
        res.clearEnvkeySockets = some [⟨auth.orgId, ge.id⟩] ∧
        lookupObj res.graph ge.id =
          some (GraphObject.generatedEnvkey
            { ge with deletedAt := some now, updatedAt := now })) ∧
      (activeEnvkeyForParent g serverId = none →
        res.transactionItems = none ∧ res.clearEnvkeySockets = none)) ∧
    (∀ (g : OrgGraph) (auth : AuthContext) (now : Nat) (localKeyId : String)
      (localKey : LocalKey) (eobj : GraphObject) (env : EnvironmentNode)
      (res : GraphHandlerResult),
      keysMatchIds g → (g.map Prod.fst).Nodup →
      lookupObj g localKeyId = some (GraphObject.localKey localKey) →
      lookupObj g localKey.environmentId = some eobj →
      asEnvironment eobj = some env →
      deleteLocalKeyGraphHandler g auth now localKeyId = some res →
      (∀ ge, activeEnvkeyForParent g localKeyId = some ge →
        res.transactionItems = some ⟨[⟨"envkey|" ++ ge.envkeyIdPart⟩]⟩ ∧
        res.clearEnvkeySockets = some [⟨auth.orgId, ge.id⟩] ∧
        lookupObj res.graph ge.id =
          some (GraphObject.generatedEnvkey
            { ge with deletedAt := some now, updatedAt := now })) ∧
      (activeEnvkeyForParent g localKeyId = none →
        res.transactionItems = none ∧ res.clearEnvkeySockets = none)) := by
  constructor
  · intro g auth now serverId server eobj env res hWFk hWFn hs henv henvv hres
    rw [deleteServerGraphHandler_eq g auth now serverId server eobj env hs
      henv henvv] at hres
    injection hres with hres
    subst hres
    have hsid : server.id = serverId := hWFk _ (mem_of_lookupObj g serverId _ hs)
    constructor
    · intro ge hidx
      obtain ⟨⟨k, hkmem⟩, hact, hparent⟩ := activeEnvkeyForParent_sound g serverId ge hidx
      have hkid : ge.id = k := hWFk _ hkmem
      have hglookup : lookupObj g ge.id = some (GraphObject.generatedEnvkey ge) := by
        rw [hkid]
        exact lookupObj_of_mem g k _ hWFn hkmem
      refine ⟨?_, ?_, ?_⟩
      · show (activeEnvkeyForParent g server.id).map _ = _
        rw [hsid, hidx]
        rfl
      · show (activeEnvkeyForParent g server.id).map _ = _
        rw [hsid, hidx]
        rfl
      · show lookupObj (getDeleteKeyableParentProducer serverId now g) ge.id = _
        rw [getDeleteKeyableParentProducer, hidx, lookupObj_deleteGraphObjects,
          hglookup]
        simp [deleteAdjustEntry, markDeleted]
    · intro hidx
      constructor
      · show (activeEnvkeyForParent g server.id).map _ = _
        rw [hsid, hidx]
        rfl
      · show (activeEnvkeyForParent g server.id).map _ = _
        rw [hsid, hidx]
        rfl
  · intro g auth now localKeyId localKey eobj env res hWFk hWFn hl henv henvv hres
    rw [deleteLocalKeyGraphHandler_eq g auth now localKeyId localKey eobj env hl
      henv henvv] at hres
    injection hres with hres
    subst hres
    have hlid : localKey.id = localKeyId := hWFk _ (mem_of_lookupObj g localKeyId _ hl)
    constructor
    · intro ge hidx
      obtain ⟨⟨k, hkmem⟩, hact, hparent⟩ := activeEnvkeyForParent_sound g localKeyId ge hidx
      have hkid : ge.id = k := hWFk _ hkmem
      have hglookup : lookupObj g ge.id = some (GraphObject.generatedEnvkey ge) := by
        rw [hkid]
        exact lookupObj_of_mem g k _ hWFn hkmem
      refine ⟨?_, ?_, ?_⟩
      · show (activeEnvkeyForParent g localKey.id).map _ = _
        rw [hlid, hidx]
        rfl
      · show (activeEnvkeyForParent g localKey.id).map _ = _
        rw [hlid, hidx]
        rfl
      · show lookupObj (getDeleteKeyableParentProducer localKeyId now g) ge.id = _
        rw [getDeleteKeyableParentProducer, hidx, lookupObj_deleteGraphObjects,
          hglookup]
        simp [deleteAdjustEntry, markDeleted]
    · intro hidx
      constructor
      · show (activeEnvkeyForParent g localKey.id).map _ = _
        rw [hlid, hidx]
        rfl
      · show (activeEnvkeyForParent g localKey.id).map _ = _
        rw [hlid, hidx]
        rfl

/-- C4 witness: deleting the sample server (holding active envkey `k1`)
and the sample local key (holding `k2`) leaves each envkey's node
soft-deleted in the resulting graph, per the theorem's cascade clause. -/
theorem deleteKeyableParent_cascades_witness :
    lookupObj (getDeleteKeyableParentProducer "s1" 7 gW) "k1" =
      some (GraphObject.generatedEnvkey
        { geW with deletedAt := some 7, updatedAt := 7 }) ∧
    lookupObj (getDeleteKeyableParentProducer "lk1" 7 gLW) "k2" =
      some (GraphObject.generatedEnvkey
        { geLW with deletedAt := some 7, updatedAt := 7 }) := by
  constructor
  · exact ((deleteKeyableParent_cascades.1 gW authW 7 "s1" serverW
      (GraphObject.environment envW) envW
      { graph := getDeleteKeyableParentProducer "s1" 7 gW
        transactionItems := some ⟨[⟨"envkey|" ++ geW.envkeyIdPart⟩]⟩
        clearEnvkeySockets := some [⟨"org1", geW.id⟩]
        logTargetIds := ["s1", "app1", "role1"]
        handlerCreatedId := none }
      gW_keysMatchIds gW_nodupKeys rfl rfl rfl rfl).1 geW rfl).2.2
  · exact ((deleteKeyableParent_cascades.2 gLW authW 7 "lk1" localKeyW
      (GraphObject.environment envW) envW
      { graph := getDeleteKeyableParentProducer "lk1" 7 gLW
        transactionItems := some ⟨[⟨"envkey|" ++ geLW.envkeyIdPart⟩]⟩
        clearEnvkeySockets := some [⟨"org1", geLW.id⟩]
        logTargetIds := ["lk1", "app1", "role1", "locals"]
        handlerCreatedId := none }
      gLW_keysMatchIds gLW_nodupKeys rfl rfl rfl rfl).1 geLW rfl).2.2

/-- A `GenerateKey` payload reusing the sample envkey's `envkeyIdPart`. -/
def payloadC2 : GenerateKeyPayload :=
  { appId := "app1"
    keyableParentId := "s1"
    keyableParentType := KeyableParentType.server
    envkeyIdPart := "abc123xyz"
    pubkey := "pk2"
    encryptedPrivkey := "enc2"
    signedTrustedRoot := "root2" }

/-- A `GenerateKey` payload with a fresh `envkeyIdPart`. -/
def payloadW2 : GenerateKeyPayload :=
  { payloadC2 with envkeyIdPart := "newpart99" }

/-- The `envkeyIdPart` of the GeneratedEnvkey stored at a given id. -/
def envkeyIdPartAt (g : OrgGraph) (id : String) : Option String :=
  match lookupObj g id with
  | some (GraphObject.generatedEnvkey ge) => some ge.envkeyIdPart
  | _ => none

/-- C1 counterexample: with `maxServerEnvkeys = 1`, an org holding one
active local-key-bound envkey and no server-bound one, and `canGenerateKey`
true: issuing for server `s2` would leave one (≤ 1) simultaneously active
server-bound credential, so the claim's condition permits it — yet the
authorizer rejects, because it counts active envkeys of every
keyable-parent type, not only server-bound ones. -/
theorem generateKeyAuthorizer_counts_all_types_counterexample :
    ¬(generateKeyGraphAuthorizer gC1 ⟨1⟩ "s2" KeyableParentType.server true =
        true ↔
      (true = true ∧
        ((1 : Int) = -1 ∨
          (serverEnvkeyNodeCount gC1 : Int) -
            (if (activeEnvkeyForParent gC1 "s2").isSome then 1 else 0) + 1 ≤
            1))) := by
  decide

/-- C1 (amended): for Server-type `GenerateKey` actions the
`graphAuthorizer` permits iff `canGenerateKey` holds and either
`maxServerEnvkeys = -1` or the number of simultaneously active
GeneratedEnvkeys of *every* keyable-parent type, net of the credential
being replaced, stays below the limit; and, with `maxServerEnvkeys = N ≥ 0`,
no sequence of `GenerateKey` pipeline steps ever results in more than `N`
simultaneously active server-bound credentials. -/
theorem generateKey_quota_authorizer_and_safety :
    (∀ (g : OrgGraph) (license : License) (keyableParentId : String)
      (canGen : Bool), atMostOneActivePerParent g →
      (generateKeyGraphAuthorizer g license keyableParentId
          KeyableParentType.server canGen = true ↔
        (canGen = true ∧
          (license.maxServerEnvkeys = -1 ∨
            (totalActiveEnvkeyCount g : Int) -
              (if (activeEnvkeyForParent g keyableParentId).isSome then 1
                else 0) <
              license.maxServerEnvkeys)))) ∧
    (∀ (N : Int) (g : OrgGraph) (actions : List LifecycleAction),
      0 ≤ N → GraphWF g → (serverEnvkeyNodeCount g : Int) ≤ N →
      (∀ a ∈ actions, ∃ auth now payload canGen,
        a = LifecycleAction.generate auth now payload canGen ∧
          auth.license = ⟨N⟩) →
      (serverEnvkeyNodeCount (runLifecycleActions g actions) : Int) ≤ N) := by
  constructor
  · intro g license keyableParentId canGen hWFa
    rw [generateKeyGraphAuthorizer_server_iff,
      numActiveEnvkeys_eq_totalActive g hWFa]
  · intro N g actions hN
    induction actions generalizing g with
    | nil =>
      intro _ hbound _
      exact hbound
    | cons a actions ih =>
      intro hWF hbound hall
      obtain ⟨auth, now, payload, canGen, ha, hlic⟩ :=
        hall a (List.mem_cons_self _ _)
      subst ha
      exact ih (applyLifecycleAction g _)
        (applyLifecycleAction_preserves_WF g _ hWF)
        (applyGenerate_quota g auth now payload canGen N hWF hN hlic hbound)
        (fun a ha => hall a (List.mem_cons_of_mem _ ha))

/-- C1 witness: regenerating the sample server's own envkey under
`maxServerEnvkeys = 1` is permitted (the replaced credential is netted
out), evaluated on the concrete sample graph. -/
theorem generateKey_quota_authorizer_and_safety_witness :
    generateKeyGraphAuthorizer gW ⟨1⟩ "s1" KeyableParentType.server true =
      true :=
  (generateKey_quota_authorizer_and_safety.1 gW ⟨1⟩ "s1" true
    ((atMostOne_iff_nodup_activeParents gW).mpr (by decide))).mpr
    ⟨rfl, Or.inr (by decide)⟩

/-- C10: the `CreateServer` `graphAuthorizer` is quota-gated before any key
is generated: on graphs satisfying the single-active-credential invariant,
it rejects whenever the license is limited and the number of currently
active GeneratedEnvkeys — of every keyable-parent type — is at least
`maxServerEnvkeys`; otherwise authorization reduces to `canCreateServer`. -/
theorem createServerAuthorizer_quota_gated (g : OrgGraph) (license : License)
    (canCreateServer : Bool) (hWF : atMostOneActivePerParent g) :
    (license.maxServerEnvkeys ≠ -1 ∧
        (totalActiveEnvkeyCount g : Int) ≥ license.maxServerEnvkeys →
      createServerGraphAuthorizer g license canCreateServer = false) ∧
    (¬(license.maxServerEnvkeys ≠ -1 ∧
        (totalActiveEnvkeyCount g : Int) ≥ license.maxServerEnvkeys) →
      createServerGraphAuthorizer g license canCreateServer =
        canCreateServer) := by
  have hnum := numActiveEnvkeys_eq_totalActive g hWF
  constructor
  · rintro ⟨h1, h2⟩
    simp [createServerGraphAuthorizer, hnum, h1, h2]
  · intro h
    simp only [not_and_or, not_not, not_le, ← lt_iff_not_ge] at h
    rcases h with h | h
    · simp [createServerGraphAuthorizer, hnum, h]
    · simp [createServerGraphAuthorizer, hnum, not_le.mpr h]

/-- C10 witness: with `maxServerEnvkeys = 1` and one active envkey in the
sample graph, server creation is rejected even though `canCreateServer`
holds. -/
theorem createServerAuthorizer_quota_gated_witness :
    createServerGraphAuthorizer gW ⟨1⟩ true = false :=
  (createServerAuthorizer_quota_gated gW ⟨1⟩ true
    ((atMostOne_iff_nodup_activeParents gW).mpr (by decide))).1
    ⟨by decide, by decide⟩

/-- C2 counterexample: the `envkeyIdPart` is client-supplied and the
handler never compares it with the replaced credential's: regenerating the
sample server's envkey with a payload reusing `K1`'s `envkeyIdPart`
succeeds and yields a new envkey whose `envkeyIdPart` equals `K1`'s — the
claim's "different `envkeyIdPart`" is not guaranteed by the code. -/
theorem generateKey_same_idPart_counterexample :
    activeEnvkeyForParent gW "s1" = some geW ∧
    (generateKeyGraphHandler gW authW 9 payloadC2 "k9").map
        (fun res => envkeyIdPartAt res.graph "k9") =
      some (some geW.envkeyIdPart) := by
  constructor
  · rfl
  · rfl

/-- C2 (amended): for a `GenerateKey` action on a KeyableParent holding an
active envkey `K1`, when the client supplies an `envkeyIdPart` different
from `K1`'s (as the protocol's fresh random generation ensures), the
result contains the new active envkey `K2` with that `envkeyIdPart` and its
hash (hence both differ from `K1`'s), `K1` is marked deleted in the same
graph, the transaction items hold exactly the hard-delete scope for `K1`'s
blob, and exactly one envkey-socket invalidation is emitted, targeted at
`K1.id`; moreover at most one active GeneratedEnvkey per KeyableParent
exists after any sequence of generate/revoke/delete pipeline steps. -/
theorem generateKey_rotation_single_active :
    (∀ (g : OrgGraph) (auth : AuthContext) (now : Nat)
      (payload : GenerateKeyPayload) (newId : String)
      (res : GraphHandlerResult) (K1 : GeneratedEnvkey),
      GraphWF g →
      lookupObj g newId = none →
      activeEnvkeyForParent g payload.keyableParentId = some K1 →
      K1.envkeyIdPartHash = sha256 K1.envkeyIdPart →
      payload.envkeyIdPart ≠ K1.envkeyIdPart →
      generateKeyGraphHandler g auth now payload newId = some res →
      ((∃ K2 : GeneratedEnvkey,
        lookupObj res.graph newId = some (GraphObject.generatedEnvkey K2) ∧
        K2.isActive = true ∧
        K2.envkeyIdPart = payload.envkeyIdPart ∧
        K2.envkeyIdPartHash = sha256 payload.envkeyIdPart ∧
        K2.envkeyIdPart ≠ K1.envkeyIdPart ∧
        K2.envkeyIdPartHash ≠ K1.envkeyIdPartHash) ∧
      lookupObj res.graph K1.id =
        some (GraphObject.generatedEnvkey
          { K1 with deletedAt := some now, updatedAt := now }) ∧
      res.transactionItems = some ⟨[⟨"envkey|" ++ K1.envkeyIdPart⟩]⟩ ∧
      res.clearEnvkeySockets = some [⟨auth.orgId, K1.id⟩])) ∧
    (∀ (g : OrgGraph) (actions : List LifecycleAction),
      GraphWF g → atMostOneActivePerParent (runLifecycleActions g actions)) := by
  constructor
  · intro g auth now payload newId res K1 hWF hfresh hidx hK1hash hneq hres
    obtain ⟨hWFk, hWFn, hWFa⟩ := hWF
    obtain ⟨pobj, kp, org0, eobj, env, hpo, hkv, horg, heo, hev⟩ :=
      generateKeyGraphHandler_inv g auth now payload newId res hres
    have hres2 := (generateKeyGraphHandler_eq_existing g auth now payload
      newId pobj kp org0 eobj env K1 hpo hkv horg heo hev hidx).symm.trans hres
    injection hres2 with hres2
    obtain ⟨⟨k, hkmem⟩, hact, hparent⟩ :=
      activeEnvkeyForParent_sound g payload.keyableParentId K1 hidx
    have hkid : K1.id = k := hWFk _ hkmem
    have hK1lookup : lookupObj g K1.id =
        some (GraphObject.generatedEnvkey K1) := by
      rw [hkid]
      exact lookupObj_of_mem g k _ hWFn hkmem
    have hK1ne_new : ¬(K1.id = newId) := by
      intro hx
      rw [hx, hfresh] at hK1lookup
      exact absurd hK1lookup (by simp)
    have hne_org_new : ¬(auth.orgId = newId) := by
      intro hx
      rw [hx, hfresh] at horg
      exact absurd horg (by simp)
    have hK1ne_org : ¬(K1.id = auth.orgId) := by
      intro hx
      rw [hx, horg] at hK1lookup
      exact absurd hK1lookup (by simp)
    have hgraph : res.graph = deleteGraphObjects
        (upsert
          (upsert g newId
            (GraphObject.generatedEnvkey (mkGeneratedEnvkey auth now payload newId kp)))
          auth.orgId (generateKeyOrgUpdate org0 payload now)) [K1.id] now := by
      rw [← hres2]
    have hg1new : lookupObj
        (upsert
          (upsert g newId
            (GraphObject.generatedEnvkey (mkGeneratedEnvkey auth now payload newId kp)))
          auth.orgId (generateKeyOrgUpdate org0 payload now)) newId =
        some (GraphObject.generatedEnvkey
          (mkGeneratedEnvkey auth now payload newId kp)) := by
      rw [lookupObj_upsert_ne _ auth.orgId newId _
        (fun hx => hne_org_new hx.symm)]
      exact lookupObj_upsert_self g newId _
    have hg1K1 : lookupObj
        (upsert
          (upsert g newId
            (GraphObject.generatedEnvkey (mkGeneratedEnvkey auth now payload newId kp)))
          auth.orgId (generateKeyOrgUpdate org0 payload now)) K1.id =
        some (GraphObject.generatedEnvkey K1) := by
      rw [lookupObj_upsert_ne _ auth.orgId K1.id _ hK1ne_org,
        lookupObj_upsert_ne g newId K1.id _ hK1ne_new]
      exact hK1lookup
    refine ⟨⟨mkGeneratedEnvkey auth now payload newId kp, ?_, rfl, rfl, rfl,
      hneq, ?_⟩, ?_, ?_, ?_⟩
    · have hnew_ne_K1 : ¬(newId = K1.id) := fun hx => hK1ne_new hx.symm
      rw [hgraph, lookupObj_deleteGraphObjects, hg1new]
      simp [deleteAdjustEntry, hnew_ne_K1]
    · intro hx
      rw [hK1hash] at hx
      exact hneq (sha256_injective hx)
    · rw [hgraph, lookupObj_deleteGraphObjects, hg1K1]
      simp [deleteAdjustEntry, markDeleted]
    · rw [← hres2]
    · rw [← hres2]
  · intro g actions hWF
    exact (runLifecycleActions_preserves_WF g actions hWF).2.2

/-- C2 witness: regenerating the sample server's envkey with a fresh
`envkeyIdPart` leaves the old credential soft-deleted in the resulting
graph. -/
theorem generateKey_rotation_single_active_witness :
    lookupObj
        (deleteGraphObjects
          (upsert
            (upsert gW "k9"
              (GraphObject.generatedEnvkey
                (mkGeneratedEnvkey authW 9 payloadW2 "k9"
                  ⟨"s1", "env1", KeyableParentType.server, none, none⟩)))
            "org1" (generateKeyOrgUpdate orgW payloadW2 9)) [geW.id] 9)
        "k1" =
      some (GraphObject.generatedEnvkey
        { geW with deletedAt := some 9, updatedAt := 9 }) :=
  ((generateKey_rotation_single_active.1 gW authW 9 payloadW2 "k9"
    { graph :=
        deleteGraphObjects
          (upsert
            (upsert gW "k9"
              (GraphObject.generatedEnvkey
                (mkGeneratedEnvkey authW 9 payloadW2 "k9"
                  ⟨"s1", "env1", KeyableParentType.server, none, none⟩)))
            "org1" (generateKeyOrgUpdate orgW payloadW2 9)) [geW.id] 9
      transactionItems := some ⟨[⟨"envkey|" ++ geW.envkeyIdPart⟩]⟩
      clearEnvkeySockets := some [⟨"org1", geW.id⟩]
      logTargetIds := ["k9", "app1", "s1", "role1"]
      handlerCreatedId := some "k9" }
    geW
    ⟨gW_keysMatchIds, gW_nodupKeys,
      (atMostOne_iff_nodup_activeParents gW).mpr (by decide)⟩
    rfl rfl rfl (by decide) rfl).2.1)

end EnvKey
